import Mathlib

/-!
Verification of the notice-generator tool (`makenotice.py`).

The development shallowly embeds the pure core of the program:
IFSC validation and bank-name resolution, the record grouper, and the
document mutation pipeline of `update_word_template` over an explicit
document model (runs / paragraphs / cells / rows / tables).  Texts are
`List Char`; fallible paths of the original (index errors on tables
without rows) are an `Option`; Python truthiness on optional values is
modelled explicitly.
-/

namespace MakeNotice

/-- Texts of the document model: Python strings as character lists. -/
abbrev Str := List Char

/-- Python `str.lower()` (ASCII range, which is all the program compares). -/
def pyLower (s : Str) : Str := s.map Char.toLower

/-- Python `str.upper()` (ASCII range). -/
def pyUpper (s : Str) : Str := s.map Char.toUpper

/-- Python `str.strip()`: drop leading and trailing whitespace. -/
def pyStrip (s : Str) : Str :=
  ((s.dropWhile Char.isWhitespace).reverse.dropWhile Char.isWhitespace).reverse

/-- Python `needle in hay` on strings: substring containment. -/
def containsSub (needle hay : Str) : Bool := decide (needle <:+: hay)

/-- Python `str.isalpha()`: nonempty and all alphabetic. -/
def pyIsAlpha (s : Str) : Bool := !s.isEmpty && s.all Char.isAlpha

/-- Python `str.isalnum()`: nonempty and all alphanumeric. -/
def pyIsAlnum (s : Str) : Bool := !s.isEmpty && s.all Char.isAlphanum

/-- `validate_ifsc` (makenotice.py:116): length 11, first 4 alphabetic,
5th character `'0'`, last 6 alphanumeric. -/
def validate_ifsc (s : Str) : Bool :=
  if s.length ≠ 11 then false
  else if !pyIsAlpha (s.take 4) then false
  else if s.getD 4 ' ' ≠ '0' then false
  else if !pyIsAlnum (s.drop 5) then false
  else true

lemma pyIsAlpha_eq_all (s : Str) (h : s ≠ []) : pyIsAlpha s = s.all Char.isAlpha := by
  unfold pyIsAlpha
  rw [List.isEmpty_eq_false.mpr h]
  simp

lemma pyIsAlnum_eq_all (s : Str) (h : s ≠ []) : pyIsAlnum s = s.all Char.isAlphanum := by
  unfold pyIsAlnum
  rw [List.isEmpty_eq_false.mpr h]
  simp

lemma validate_ifsc_eq (s : Str) :
    validate_ifsc s =
      (decide (s.length = 11) && pyIsAlpha (s.take 4) &&
        decide (s.getD 4 ' ' = '0') && pyIsAlnum (s.drop 5)) := by
  unfold validate_ifsc
  by_cases hlen : s.length = 11 <;>
    cases hA : pyIsAlpha (s.take 4) <;>
      by_cases h0 : s.getD 4 ' ' = '0' <;>
        cases hN : pyIsAlnum (s.drop 5) <;>
          simp [hlen, h0]

lemma getElem_idx_congr (s : Str) (i j : Nat) (hi : i < s.length) (hj : j < s.length)
    (h : i = j) : s[i] = s[j] := by
  subst h; rfl

lemma all_take_iff_getD (s : Str) (n : Nat) (p : Char → Bool) (hn : n ≤ s.length) :
    (s.take n).all p = true ↔ ∀ i, i < n → p (s.getD i ' ') = true := by
  rw [List.all_eq_true]
  constructor
  · intro h i hi
    have hil : i < s.length := lt_of_lt_of_le hi hn
    have hlen : i < (s.take n).length := by simp [List.length_take]; omega
    have hmem : (s.take n)[i] ∈ s.take n := List.getElem_mem hlen
    rw [List.getElem_take] at hmem
    have hp := h _ hmem
    rw [List.getD_eq_getElem?_getD, List.getElem?_eq_getElem hil]
    simpa using hp
  · intro h x hx
    obtain ⟨i, hi, hxi⟩ := List.mem_iff_getElem.mp hx
    have hin : i < n := by simp [List.length_take] at hi; omega
    have hil : i < s.length := lt_of_lt_of_le hin hn
    have hp := h i hin
    rw [List.getD_eq_getElem?_getD, List.getElem?_eq_getElem hil] at hp
    rw [← hxi, List.getElem_take]
    simpa using hp

lemma all_drop_iff_getD (s : Str) (k : Nat) (p : Char → Bool) :
    (s.drop k).all p = true ↔ ∀ i, k ≤ i → i < s.length → p (s.getD i ' ') = true := by
  rw [List.all_eq_true]
  constructor
  · intro h i hk hi
    have hlen : i - k < (s.drop k).length := by rw [List.length_drop]; omega
    have hmem : (s.drop k)[i - k] ∈ s.drop k := List.getElem_mem hlen
    rw [List.getElem_drop] at hmem
    have hp := h _ hmem
    have hklt : k + (i - k) < s.length := by omega
    rw [List.getD_eq_getElem?_getD, List.getElem?_eq_getElem hi]
    simp only [Option.getD_some]
    rw [getElem_idx_congr s i (k + (i - k)) hi hklt (by omega)]
    exact hp
  · intro h x hx
    obtain ⟨i, hi, hxi⟩ := List.mem_iff_getElem.mp hx
    have hklen : k + i < s.length := by rw [List.length_drop] at hi; omega
    have hp := h (k + i) (by omega) hklen
    rw [List.getD_eq_getElem?_getD, List.getElem?_eq_getElem hklen] at hp
    rw [← hxi, List.getElem_drop]
    simpa using hp

/-- C2: `validate_ifsc` returns true exactly when the string has length 11,
characters 0..3 alphabetic, character 4 equal to `'0'`, and characters 5..10
alphanumeric; in particular it is false for every string of length ≠ 11, and
it is a total (pure, non-throwing) Boolean predicate. -/
theorem C2_validate_ifsc_characterisation :
    ∀ s : Str,
      (validate_ifsc s = true ↔
        (s.length = 11 ∧ (∀ i, i < 4 → (s.getD i ' ').isAlpha = true) ∧
          s.getD 4 ' ' = '0' ∧
          (∀ i, 5 ≤ i → i < 11 → (s.getD i ' ').isAlphanum = true)))
      ∧ (s.length ≠ 11 → validate_ifsc s = false) := by
  intro s
  have main : validate_ifsc s = true ↔
      (s.length = 11 ∧ (∀ i, i < 4 → (s.getD i ' ').isAlpha = true) ∧
        s.getD 4 ' ' = '0' ∧
        (∀ i, 5 ≤ i → i < 11 → (s.getD i ' ').isAlphanum = true)) := by
    rw [validate_ifsc_eq]
    by_cases hlen : s.length = 11
    · have hne4 : s.take 4 ≠ [] := by
        intro h
        have := congrArg List.length h
        simp [List.length_take, hlen] at this
      have hne5 : s.drop 5 ≠ [] := by
        intro h
        have := congrArg List.length h
        simp [List.length_drop, hlen] at this
      rw [pyIsAlpha_eq_all _ hne4, pyIsAlnum_eq_all _ hne5]
      simp only [Bool.and_eq_true, beq_iff_eq, decide_eq_true_eq]
      rw [all_take_iff_getD s 4 _ (by omega), all_drop_iff_getD s 5 _]
      constructor
      · rintro ⟨⟨⟨-, h1⟩, h2⟩, h3⟩
        exact ⟨hlen, h1, h2, fun i a b => h3 i a (by omega)⟩
      · rintro ⟨-, h1, h2, h3⟩
        exact ⟨⟨⟨hlen, h1⟩, h2⟩, fun i a b => h3 i a (by omega)⟩
    · simp [hlen]
  refine ⟨main, fun hne => ?_⟩
  rw [validate_ifsc_eq]
  simp [hne]

/-- Witness for C2 at concrete inputs: a valid code is accepted and a
length-2 string is rejected. -/
theorem C2_witness :
    validate_ifsc ("SBIN0001234".toList) = true ∧
      validate_ifsc ("AB".toList) = false := by
  refine ⟨?_, (C2_validate_ifsc_characterisation ("AB".toList)).2 (by decide)⟩
  exact (C2_validate_ifsc_characterisation ("SBIN0001234".toList)).1.mpr (by decide)

/-- `IFSC_BANK_MAP` (makenotice.py:25): static prefix → bank-name table. -/
def IFSC_BANK_MAP : List (String × String) := [
  ("SBIN", "STATE BANK OF INDIA"),
  ("ALLA", "ALLAHABAD BANK"),
  ("ANDB", "ANDHRA BANK"),
  ("BARB", "BANK OF BARODA"),
  ("BKID", "BANK OF INDIA"),
  ("MAHB", "BANK OF MAHARASHTRA"),
  ("CNRB", "CANARA BANK"),
  ("CBIN", "CENTRAL BANK OF INDIA"),
  ("CORP", "CORPORATION BANK"),
  ("BKDN", "DENA BANK"),
  ("IBKL", "IDBI BANK"),
  ("IDIB", "INDIAN BANK"),
  ("IOBA", "INDIAN OVERSEAS BANK"),
  ("ORBC", "ORIENTAL BANK OF COMMERCE"),
  ("PSIB", "PUNJAB & SIND BANK"),
  ("PUNB", "PUNJAB NATIONAL BANK"),
  ("SBBJ", "STATE BANK OF BIKANER & JAIPUR"),
  ("SBHY", "STATE BANK OF HYDERABAD"),
  ("SBMY", "STATE BANK OF MYSORE"),
  ("STBP", "STATE BANK OF PATIALA"),
  ("SBTR", "STATE BANK OF TRAVANCORE"),
  ("SYNB", "SYNDICATE BANK"),
  ("UCBA", "UCO BANK"),
  ("UBIN", "UNION BANK OF INDIA"),
  ("UTBI", "UNITED BANK OF INDIA"),
  ("VIJB", "VIJAYA BANK"),
  ("BMBL", "BHARTIYA MAHILA BANK"),
  ("UTIB", "AXIS BANK"),
  ("HDFC", "HDFC BANK"),
  ("ICIC", "ICICI BANK"),
  ("INDB", "INDUSIND BANK"),
  ("KKBK", "KOTAK MAHINDRA BANK"),
  ("YESB", "YES BANK"),
  ("DCBL", "DCB BANK"),
  ("FDRL", "FEDERAL BANK"),
  ("KARB", "KARNATAKA BANK"),
  ("KVBL", "KARUR VYSYA BANK"),
  ("RATN", "RBL BANK"),
  ("SIBL", "SOUTH INDIAN BANK"),
  ("TMBL", "TAMILNAD MERCANTILE BANK"),
  ("VYSA", "ING VYSYA BANK"),
  ("ABHY", "ABHYUDAYA CO-OP BANK"),
  ("ASBL", "APNA SAHAKARI BANK"),
  ("GSCB", "GUJARAT STATE CO-OP BANK"),
  ("HCBL", "HASTI CO-OP BANK"),
  ("JSBP", "JANATA SAHAKARI BANK"),
  ("MSNU", "MEHSANA URBAN CO-OP BANK"),
  ("NTBL", "NAINITAL BANK"),
  ("NKGS", "NKGSB CO-OP BANK"),
  ("PMCB", "PUNJAB & MAHARASHTRA CO-OP BANK"),
  ("SRCB", "SARASWAT BANK"),
  ("CIUB", "CITY UNION BANK"),
  ("CSBK", "CATHOLIC SYRIAN BANK"),
  ("DLXB", "DHANLAXMI BANK"),
  ("ESFB", "EQUITAS SMALL FINANCE BANK"),
  ("IDFB", "IDFC FIRST BANK"),
  ("JAKA", "JAMMU & KASHMIR BANK"),
  ("LAVB", "LAKSHMI VILAS BANK"),
  ("NSPB", "NSDL PAYMENTS BANK"),
  ("PAYU", "PAYU PAYMENTS PRIVATE LIMITED"),
  ("PYTM", "PAYTM PAYMENTS BANK")]

/-- The 4-character prefix of a code, uppercased (`ifsc_code[:4].upper()`). -/
def bankCodeOf (ifsc_code : String) : String :=
  String.mk (pyUpper (ifsc_code.toList.take 4))

/-- `get_bank_name` (makenotice.py:96): UNKNOWN for falsy / short codes,
else table lookup on the uppercased 4-character prefix, with a generic
`<PREFIX> BANK` default. -/
def get_bank_name (ifsc_code : String) : String :=
  if ifsc_code = "" ∨ ifsc_code.length < 4 then
    "UNKNOWN BANK (" ++ ifsc_code ++ ")"
  else
    match IFSC_BANK_MAP.lookup (bankCodeOf ifsc_code) with
    | some bank_name => bank_name
    | none => bankCodeOf ifsc_code ++ " BANK"

lemma lookup_eq_of_mem_of_nodupKeys {m : List (String × String)} {k v : String}
    (hnd : (m.map Prod.fst).Nodup) (h : (k, v) ∈ m) : m.lookup k = some v := by
  induction m with
  | nil => cases h
  | cons hd tl ih =>
    obtain ⟨a, b⟩ := hd
    rw [List.map_cons, List.nodup_cons] at hnd
    rcases List.mem_cons.mp h with heq | htl
    · have hk : k = a := congrArg Prod.fst heq
      have hv : v = b := congrArg Prod.snd heq
      subst hk; subst hv
      rw [List.lookup_cons]
      simp
    · have hka : k ≠ a := by
        intro hk
        subst hk
        exact hnd.1 (List.mem_map.mpr ⟨(k, v), htl, rfl⟩)
      have hbeq : (k == a) = false := beq_eq_false_iff_ne.mpr hka
      rw [List.lookup_cons, hbeq]
      exact ih hnd.2 htl

lemma lookup_eq_none_of_not_mem_keys {m : List (String × String)} {k : String}
    (h : k ∉ m.map Prod.fst) : m.lookup k = none := by
  induction m with
  | nil => rfl
  | cons hd tl ih =>
    obtain ⟨a, b⟩ := hd
    rw [List.map_cons, List.mem_cons] at h
    push_neg at h
    have hbeq : (k == a) = false := beq_eq_false_iff_ne.mpr h.1
    rw [List.lookup_cons, hbeq]
    exact ih h.2

lemma IFSC_BANK_MAP_keys_nodup : (IFSC_BANK_MAP.map Prod.fst).Nodup := by decide

/-- C8: `get_bank_name` returns `UNKNOWN BANK (<code>)` for empty or
shorter-than-4-character codes, and otherwise looks up the uppercased
4-character prefix in the static table, returning the mapped name on a hit
and `<PREFIX> BANK` on a miss; in particular the three concrete examples. -/
theorem C8_get_bank_name_spec :
    (∀ code : String, code.length < 4 →
        get_bank_name code = "UNKNOWN BANK (" ++ code ++ ")")
    ∧ (∀ code : String, 4 ≤ code.length →
        (∀ name, (bankCodeOf code, name) ∈ IFSC_BANK_MAP →
            get_bank_name code = name)
        ∧ (bankCodeOf code ∉ IFSC_BANK_MAP.map Prod.fst →
            get_bank_name code = bankCodeOf code ++ " BANK"))
    ∧ get_bank_name "SBIN0001234" = "STATE BANK OF INDIA"
    ∧ get_bank_name "ZZZZ0000001" = "ZZZZ BANK"
    ∧ get_bank_name "" = "UNKNOWN BANK ()" := by
  refine ⟨?_, ?_, by decide, by decide, by decide⟩
  · intro code hlt
    unfold get_bank_name
    rw [if_pos (Or.inr hlt)]
  · intro code hge
    have hcond : ¬ (code = "" ∨ code.length < 4) := by
      push_neg
      refine ⟨?_, by omega⟩
      intro h
      subst h
      simp at hge
    constructor
    · intro name hmem
      unfold get_bank_name
      rw [if_neg hcond, lookup_eq_of_mem_of_nodupKeys IFSC_BANK_MAP_keys_nodup hmem]
    · intro hnot
      unfold get_bank_name
      rw [if_neg hcond, lookup_eq_none_of_not_mem_keys hnot]

/-- Witness for C8: the hypotheses of the quantified parts discharged at
concrete codes, a table hit and a table miss. -/
theorem C8_witness :
    get_bank_name "AB" = "UNKNOWN BANK (AB)" ∧
      get_bank_name "HDFC0000001" = "HDFC BANK" ∧
      get_bank_name "ZZZZ0000001" = "ZZZZ BANK" := by
  refine ⟨C8_get_bank_name_spec.1 "AB" (by decide), ?_, ?_⟩
  · exact (C8_get_bank_name_spec.2.1 "HDFC0000001" (by decide)).1 "HDFC BANK" (by decide)
  · exact (C8_get_bank_name_spec.2.1 "ZZZZ0000001" (by decide)).2 (by decide)

/-- One input row, as resolved by the external tabular reader: the raw
account-number, account-name and IFSC cells. -/
structure RawRow where
  acc : Str
  nam : Str
  code : Str
deriving DecidableEq

/-- An account record as built by the grouping loop (makenotice.py:195). -/
structure AccountRecord where
  account_no : Str
  account_name : Str
  ifsc : Str
deriving DecidableEq

instance : Inhabited AccountRecord := ⟨{ account_no := [], account_name := [], ifsc := [] }⟩

/-- Ordered mapping IFSC → records, insertion-ordered like a Python
`defaultdict(list)` under dict ordering. -/
abbrev Grouped := List (Str × List AccountRecord)

/-- `str(row[ifsc_col]).strip().upper()` (makenotice.py:188). -/
def normalizeCode (s : Str) : Str := pyUpper (pyStrip s)

/-- The record dict appended per row (makenotice.py:195-199). -/
def mkRecord (row : RawRow) (ifsc : Str) : AccountRecord :=
  { account_no := pyStrip row.acc, account_name := pyStrip row.nam, ifsc := ifsc }

/-- `grouped[ifsc].append(record)` on the ordered mapping. -/
def insertGrouped (g : Grouped) (k : Str) (rec : AccountRecord) : Grouped :=
  match g with
  | [] => [(k, [rec])]
  | (k0, recs0) :: tl =>
    if k0 = k then (k0, recs0 ++ [rec]) :: tl
    else (k0, recs0) :: insertGrouped tl k rec

/-- One iteration of the grouping loop (makenotice.py:187-199). -/
def groupStep (st : Grouped × List Str) (row : RawRow) : Grouped × List Str :=
  let ifsc := normalizeCode row.code
  if validate_ifsc ifsc then (insertGrouped st.1 ifsc (mkRecord row ifsc), st.2)
  else (st.1, st.2 ++ [ifsc])

/-- The grouping core of `read_excel_data` (makenotice.py:183-208): returns
the grouped records and the collected invalid codes. -/
def read_excel_group (rows : List RawRow) : Grouped × List Str :=
  rows.foldl groupStep ([], [])

/-- Total number of records held in a grouped mapping. -/
def totalRecs (g : Grouped) : Nat := (g.map (fun p => p.2.length)).sum

lemma mem_insertGrouped {g : Grouped} {k : Str} {rec : AccountRecord}
    {k' : Str} {recs' : List AccountRecord} (h : (k', recs') ∈ insertGrouped g k rec) :
    (k', recs') ∈ g ∨
      (k' = k ∧ (recs' = [rec] ∨ ∃ old, (k, old) ∈ g ∧ recs' = old ++ [rec])) := by
  induction g with
  | nil =>
    simp only [insertGrouped, List.mem_singleton] at h
    have hk : k' = k := congrArg Prod.fst h
    have hr : recs' = [rec] := congrArg Prod.snd h
    exact Or.inr ⟨hk, Or.inl hr⟩
  | cons hd tl ih =>
    obtain ⟨k0, recs0⟩ := hd
    by_cases hk : k0 = k
    · rw [insertGrouped, if_pos hk] at h
      rcases List.mem_cons.mp h with heq | htl
      · have hk' : k' = k0 := congrArg Prod.fst heq
        have hr : recs' = recs0 ++ [rec] := congrArg Prod.snd heq
        refine Or.inr ⟨hk'.trans hk, Or.inr ⟨recs0, ?_, hr⟩⟩
        rw [← hk]
        exact List.mem_cons_self _ _
      · exact Or.inl (List.mem_cons_of_mem _ htl)
    · rw [insertGrouped, if_neg hk] at h
      rcases List.mem_cons.mp h with heq | htl
      · exact Or.inl (List.mem_cons.mpr (Or.inl heq))
      · rcases ih htl with hg | ⟨hkk, hcase⟩
        · exact Or.inl (List.mem_cons_of_mem _ hg)
        · refine Or.inr ⟨hkk, ?_⟩
          rcases hcase with h1 | ⟨old, hold, hrr⟩
          · exact Or.inl h1
          · exact Or.inr ⟨old, List.mem_cons_of_mem _ hold, hrr⟩

lemma totalRecs_insertGrouped (g : Grouped) (k : Str) (rec : AccountRecord) :
    totalRecs (insertGrouped g k rec) = totalRecs g + 1 := by
  induction g with
  | nil => simp [insertGrouped, totalRecs]
  | cons hd tl ih =>
    obtain ⟨k0, recs0⟩ := hd
    by_cases hk : k0 = k
    · rw [insertGrouped, if_pos hk]
      simp only [totalRecs, List.map_cons, List.sum_cons, List.length_append,
        List.length_singleton]
      omega
    · rw [insertGrouped, if_neg hk]
      simp only [totalRecs, List.map_cons, List.sum_cons] at *
      omega

lemma group_fold_invariant (rows : List RawRow) :
    ∀ st : Grouped × List Str,
      (∀ k recs, (k, recs) ∈ st.1 → validate_ifsc k = true ∧ recs ≠ []) →
      (∀ k recs, (k, recs) ∈ (rows.foldl groupStep st).1 →
          validate_ifsc k = true ∧ recs ≠ []) ∧
        (rows.foldl groupStep st).2.length + totalRecs (rows.foldl groupStep st).1 =
          st.2.length + totalRecs st.1 + rows.length := by
  induction rows with
  | nil => intro st h; exact ⟨h, by simp⟩
  | cons r rest ih =>
    intro st h
    rw [List.foldl_cons]
    by_cases hv : validate_ifsc (normalizeCode r.code) = true
    · have hstep : groupStep st r =
          (insertGrouped st.1 (normalizeCode r.code)
            (mkRecord r (normalizeCode r.code)), st.2) := by
        unfold groupStep
        rw [if_pos hv]
      have hpre : ∀ k recs, (k, recs) ∈ (groupStep st r).1 →
          validate_ifsc k = true ∧ recs ≠ [] := by
        intro k recs hmem
        rw [hstep] at hmem
        rcases mem_insertGrouped hmem with hold | ⟨hkk, hcase⟩
        · exact h k recs hold
        · subst hkk
          refine ⟨hv, ?_⟩
          rcases hcase with h1 | ⟨old, -, hrr⟩
          · rw [h1]; simp
          · rw [hrr]; simp
      obtain ⟨h1, h2⟩ := ih (groupStep st r) hpre
      refine ⟨h1, ?_⟩
      rw [hstep] at h2 ⊢
      simp only [totalRecs_insertGrouped, List.length_cons] at h2 ⊢
      omega
    · have hstep : groupStep st r = (st.1, st.2 ++ [normalizeCode r.code]) := by
        unfold groupStep
        rw [if_neg hv]
      have hpre : ∀ k recs, (k, recs) ∈ (groupStep st r).1 →
          validate_ifsc k = true ∧ recs ≠ [] := by
        intro k recs hmem
        rw [hstep] at hmem
        exact h k recs hmem
      obtain ⟨h1, h2⟩ := ih (groupStep st r) hpre
      refine ⟨h1, ?_⟩
      rw [hstep] at h2 ⊢
      simp at h2 ⊢
      omega

/-- C5: every key of the grouped mapping is a valid IFSC, no group is empty,
and the number of invalid codes plus the records across all groups equals the
number of input rows. -/
theorem C5_grouping_invariants :
    ∀ rows : List RawRow,
      (∀ k recs, (k, recs) ∈ (read_excel_group rows).1 →
          validate_ifsc k = true ∧ recs ≠ []) ∧
        (read_excel_group rows).2.length + totalRecs (read_excel_group rows).1 =
          rows.length := by
  intro rows
  have h := group_fold_invariant rows ([], []) (by intro k recs h; cases h)
  unfold read_excel_group
  refine ⟨h.1, ?_⟩
  have h2 := h.2
  simp [totalRecs] at h2 ⊢
  omega

/-- Witness for C5: the invariant instantiated on a concrete mixed input
(one valid row that gets normalised, one invalid row). -/
theorem C5_witness :
    validate_ifsc ("SBIN0001234".toList) = true ∧
      ([⟨"11".toList, "Alice".toList, "SBIN0001234".toList⟩] :
        List AccountRecord) ≠ [] :=
  (C5_grouping_invariants
      [⟨"11".toList, " Alice ".toList, "sbin0001234 ".toList⟩,
        ⟨"22".toList, "B".toList, "BAD".toList⟩]).1
    ("SBIN0001234".toList)
    [⟨"11".toList, "Alice".toList, "SBIN0001234".toList⟩]
    (by decide)

lemma mem_insertGrouped_rec {g : Grouped} {k : Str} {rec : AccountRecord}
    {k' : Str} {recs' : List AccountRecord} {x : AccountRecord}
    (h : (k', recs') ∈ insertGrouped g k rec) (hx : x ∈ recs') :
    (∃ recs, (k', recs) ∈ g ∧ x ∈ recs) ∨ (k' = k ∧ x = rec) := by
  rcases mem_insertGrouped h with hold | ⟨hkk, hcase⟩
  · exact Or.inl ⟨recs', hold, hx⟩
  · rcases hcase with h1 | ⟨old, hold, hrr⟩
    · subst h1
      exact Or.inr ⟨hkk, List.mem_singleton.mp hx⟩
    · subst hrr
      rcases List.mem_append.mp hx with hmem | hnew
      · exact Or.inl ⟨old, hkk ▸ hold, hmem⟩
      · exact Or.inr ⟨hkk, List.mem_singleton.mp hnew⟩

lemma group_fold_origin (rows : List RawRow) :
    ∀ (st : Grouped × List Str) (P : RawRow → Prop),
      (∀ k recs rec, (k, recs) ∈ st.1 → rec ∈ recs →
          rec.ifsc = k ∧
            ∃ row, P row ∧ normalizeCode row.code = k ∧ rec = mkRecord row k) →
      ∀ k recs rec, (k, recs) ∈ (rows.foldl groupStep st).1 → rec ∈ recs →
          rec.ifsc = k ∧
            ∃ row, (P row ∨ row ∈ rows) ∧ normalizeCode row.code = k ∧
              rec = mkRecord row k := by
  induction rows with
  | nil =>
    intro st P H k recs rec hmem hrec
    obtain ⟨h1, row, hp, hn, he⟩ := H k recs rec hmem hrec
    exact ⟨h1, row, Or.inl hp, hn, he⟩
  | cons r rest ih =>
    intro st P H k recs rec hmem hrec
    rw [List.foldl_cons] at hmem
    have H' : ∀ k recs x, (k, recs) ∈ (groupStep st r).1 → x ∈ recs →
        x.ifsc = k ∧
          ∃ row, (P row ∨ row = r) ∧ normalizeCode row.code = k ∧
            x = mkRecord row k := by
      intro k0 recs0 x hmem0 hx0
      unfold groupStep at hmem0
      by_cases hv : validate_ifsc (normalizeCode r.code) = true
      · rw [if_pos hv] at hmem0
        rcases mem_insertGrouped_rec hmem0 hx0 with ⟨recs1, hold, hx1⟩ | ⟨hkk, hxr⟩
        · obtain ⟨h1, row, hp, hn, he⟩ := H k0 recs1 x hold hx1
          exact ⟨h1, row, Or.inl hp, hn, he⟩
        · subst hkk
          subst hxr
          exact ⟨rfl, r, Or.inr rfl, rfl, rfl⟩
      · rw [if_neg hv] at hmem0
        obtain ⟨h1, row, hp, hn, he⟩ := H k0 recs0 x hmem0 hx0
        exact ⟨h1, row, Or.inl hp, hn, he⟩
    obtain ⟨h1, row, hpr, hn, he⟩ :=
      ih (groupStep st r) (fun row => P row ∨ row = r) H' k recs rec hmem hrec
    refine ⟨h1, row, ?_, hn, he⟩
    rcases hpr with (hp | hr) | hmem2
    · exact Or.inl hp
    · exact Or.inr (hr ▸ List.mem_cons_self _ _)
    · exact Or.inr (List.mem_cons_of_mem _ hmem2)

/-- C10: every record stored in a group has its `ifsc` field equal to the
group key, and the key is the trimmed, uppercased form of the routing-code
cell of the input row the record was built from. -/
theorem C10_group_key_normalisation :
    ∀ (rows : List RawRow) (k : Str) (recs : List AccountRecord)
      (rec : AccountRecord),
      (k, recs) ∈ (read_excel_group rows).1 → rec ∈ recs →
      rec.ifsc = k ∧
        ∃ row ∈ rows, normalizeCode row.code = k ∧ rec = mkRecord row k := by
  intro rows k recs rec hmem hrec
  have h := group_fold_origin rows ([], []) (fun _ => False)
    (by intro k0 recs0 rec0 h0; cases h0) k recs rec hmem hrec
  obtain ⟨h1, row, hpr, hn, he⟩ := h
  rcases hpr with hfalse | hmem2
  · cases hfalse
  · exact ⟨h1, row, hmem2, hn, he⟩

/-- Witness for C10: the normalisation property instantiated on a concrete
input whose code cell needs trimming and uppercasing. -/
theorem C10_witness :
    (⟨"11".toList, "Alice".toList, "SBIN0001234".toList⟩ :
        AccountRecord).ifsc = "SBIN0001234".toList ∧
      ∃ row ∈ [(⟨"11".toList, " Alice ".toList, " sbin0001234".toList⟩ : RawRow)],
        normalizeCode row.code = "SBIN0001234".toList ∧
          (⟨"11".toList, "Alice".toList, "SBIN0001234".toList⟩ : AccountRecord) =
            mkRecord row ("SBIN0001234".toList) :=
  C10_group_key_normalisation
    [⟨"11".toList, " Alice ".toList, " sbin0001234".toList⟩]
    ("SBIN0001234".toList)
    [⟨"11".toList, "Alice".toList, "SBIN0001234".toList⟩]
    ⟨"11".toList, "Alice".toList, "SBIN0001234".toList⟩
    (by decide) (by decide)

/-! ## Document model

An explicit tree model of the python-docx document: runs carry text and
character formatting, paragraphs carry runs and paragraph formatting,
table cells carry paragraphs plus cell properties, rows carry cells and a
height, tables carry a column count (the `tblGrid`) and rows.  Row heights
and point sizes are kept in EMU resp. whole points. -/

inductive ParAlign | left | center | right | justify
deriving DecidableEq

inductive TblAlign | left | center | right
deriving DecidableEq

inductive VAlign | top | center | bottom
deriving DecidableEq

inductive HeightRule | atLeast | exactly | auto
deriving DecidableEq

structure Run where
  text : Str
  bold : Option Bool
  fontName : Option String
  fontSize : Option Nat
  color : Option (Nat × Nat × Nat)
deriving DecidableEq

structure Paragraph where
  runs : List Run
  alignment : Option ParAlign
  spaceBefore : Option Nat
  spaceAfter : Option Nat
  lineSpacing : Option Nat
  leftIndent : Option Int
  rightIndent : Option Int
  firstLineIndent : Option Int
  styleName : Option String
deriving DecidableEq

structure Cell where
  paragraphs : List Paragraph
  width : Option Nat
  margins : Option (Nat × Nat × Nat × Nat)
  hasBorders : Bool
  vAlign : Option VAlign
deriving DecidableEq

structure Row where
  cells : List Cell
  height : Option Nat
  heightRule : Option HeightRule
deriving DecidableEq

structure Table where
  ncols : Nat
  rows : List Row
  alignment : Option TblAlign
  styleName : Option String
  hasBorders : Bool
deriving DecidableEq

structure Doc where
  paragraphs : List Paragraph
  tables : List Table
  styles : List String
deriving DecidableEq

instance : Inhabited Run :=
  ⟨{ text := [], bold := none, fontName := none, fontSize := none, color := none }⟩

instance : Inhabited Paragraph :=
  ⟨{ runs := [], alignment := none, spaceBefore := none, spaceAfter := none,
     lineSpacing := none, leftIndent := none, rightIndent := none,
     firstLineIndent := none, styleName := none }⟩

instance : Inhabited Cell :=
  ⟨{ paragraphs := [], width := none, margins := none, hasBorders := false,
     vAlign := none }⟩

instance : Inhabited Row := ⟨{ cells := [], height := none, heightRule := none }⟩

instance : Inhabited Table :=
  ⟨{ ncols := 0, rows := [], alignment := none, styleName := none,
     hasBorders := false }⟩

/-- `paragraph.text`: concatenation of the run texts. -/
def Paragraph.text (p : Paragraph) : Str := (p.runs.map Run.text).flatten

/-- A run created by a text assignment: default character formatting. -/
def defaultRun (t : Str) : Run :=
  { text := t, bold := none, fontName := none, fontSize := none, color := none }

/-- `paragraph.text = t`: the runs are replaced by a single fresh run. -/
def Paragraph.setText (p : Paragraph) (t : Str) : Paragraph :=
  { p with runs := [defaultRun t] }

/-- A fresh empty paragraph (as produced by `add_row` / `cell.text =`). -/
def emptyParagraph : Paragraph :=
  { runs := [], alignment := none, spaceBefore := none, spaceAfter := none,
    lineSpacing := none, leftIndent := none, rightIndent := none,
    firstLineIndent := none, styleName := none }

/-- `cell.text`: newline-joined paragraph texts. -/
def Cell.text (c : Cell) : Str := List.intercalate ['\n'] (c.paragraphs.map Paragraph.text)

/-- `cell.text = t`: content replaced by one paragraph with one fresh run. -/
def Cell.setText (c : Cell) (t : Str) : Cell :=
  { c with paragraphs := [{ emptyParagraph with runs := [defaultRun t] }] }

/-- A fresh cell as `table.add_row()` produces. -/
def emptyCell : Cell :=
  { paragraphs := [emptyParagraph], width := none, margins := none,
    hasBorders := false, vAlign := none }

/-- `Pt(n)` for a row height: EMU per point is 12700. -/
def ptEmu (n : Nat) : Nat := n * 12700

/-! ## `_extract_template_baseline` (makenotice.py:320) -/

/-- One run's effect on the (font name, font size) candidates: a truthy
value overwrites the candidate (`font_name = r.font.name`). -/
def updRunFont (st : Option String × Option Nat) (r : Run) :
    Option String × Option Nat :=
  let n := match r.fontName with
    | some nm => if nm ≠ "" then some nm else st.1
    | none => st.1
  let s := match r.fontSize with
    | some sz => if sz ≠ 0 then some sz else st.2
    | none => st.2
  (n, s)

/-- `if font_name and font_size: break`. -/
def fontStateDone (st : Option String × Option Nat) : Bool :=
  st.1.isSome && st.2.isSome

/-- The inner run loop with its early `break`. -/
def scanRunsFont : (Option String × Option Nat) → List Run → Option String × Option Nat
  | st, [] => st
  | st, r :: rs =>
    let st2 := updRunFont st r
    if fontStateDone st2 then st2 else scanRunsFont st2 rs

/-- The outer paragraph loop with its early `break`. -/
def scanParasFont :
    (Option String × Option Nat) → List Paragraph → Option String × Option Nat
  | st, [] => st
  | st, p :: ps =>
    let st2 := scanRunsFont st p.runs
    if fontStateDone st2 then st2 else scanParasFont st2 ps

/-- The font part of `_extract_template_baseline`, fallbacks applied
(`if not font_name: font_name = fallback_font_name`, same for size). -/
def extractFonts (doc : Doc) (fallbackName : String) (fallbackSize : Nat) :
    String × Nat :=
  let st := scanParasFont (none, none) doc.paragraphs
  (st.1.getD fallbackName, st.2.getD fallbackSize)

/-- `''.join(cell.text for cell in row.cells).lower()`. -/
def lowerHeaderText (row : Row) : Str := pyLower ((row.cells.map Cell.text).flatten)

/-- Header-row detection: contains both `"account"` and `"ifsc"`. -/
def headerMatch (row : Row) : Bool :=
  containsSub ("account".toList) (lowerHeaderText row) &&
    containsSub ("ifsc".toList) (lowerHeaderText row)

/-- First table with 3 columns and a matching header row.  `none` models the
uncaught `IndexError` raised by `table.rows[0]` when a 3-column table with no
rows is encountered first; `some none` means no matching table. -/
def findAccountsTableAux : Nat → List Table → Option (Option Nat)
  | _, [] => some none
  | i, t :: ts =>
    if t.ncols = 3 then
      match t.rows with
      | [] => none
      | r0 :: _ =>
        if headerMatch r0 then some (some i) else findAccountsTableAux (i + 1) ts
    else findAccountsTableAux (i + 1) ts

def findAccountsTable (ts : List Table) : Option (Option Nat) :=
  findAccountsTableAux 0 ts

/-- What the table scan of `_extract_template_baseline` captures from the
matching table's header row. -/
structure HeaderCapture where
  widths : Option (List (Option Nat))
  rowHeight : Option Nat
  spacing : Option (Option Nat × Option Nat × Option Nat)
deriving DecidableEq

/-- `table.rows[0].cells[0].paragraphs[0]` spacing triple, `None` when the
indexing fails (the `try`/`except` at makenotice.py:352-357). -/
def captureSpacing (r0 : Row) : Option (Option Nat × Option Nat × Option Nat) :=
  match r0.cells.head? with
  | none => none
  | some c =>
    match c.paragraphs.head? with
    | none => none
    | some p => some (p.spaceBefore, p.spaceAfter, p.lineSpacing)

/-- The table scan of `_extract_template_baseline` (makenotice.py:343-358).
`none` models the uncaught `IndexError` on a rows-less 3-column table. -/
def extractTableBaseline : List Table → Option HeaderCapture
  | [] => some ⟨none, none, none⟩
  | t :: ts =>
    if t.ncols = 3 then
      match t.rows with
      | [] => none
      | r0 :: _ =>
        if headerMatch r0 then
          some ⟨some (r0.cells.map Cell.width), r0.height, captureSpacing r0⟩
        else extractTableBaseline ts
    else extractTableBaseline ts

/-- `_extract_template_baseline` (makenotice.py:320): font name/size plus the
header capture of the accounts table. -/
def extract_template_baseline (doc : Doc) (fallbackName : String)
    (fallbackSize : Nat) : Option (String × Nat × HeaderCapture) :=
  match extractTableBaseline doc.tables with
  | none => none
  | some cap =>
    let fonts := extractFonts doc fallbackName fallbackSize
    some (fonts.1, fonts.2, cap)

/-! ## Tone (`_detect_tone`, `_apply_tone`, makenotice.py:242-271) -/

def urgentKeys : List Str :=
  ["urgent".toList, "immediate".toList, "final notice".toList, "last reminder".toList]

def friendlyKeys : List Str :=
  ["kindly".toList, "please".toList, "request".toList, "cooperate".toList]

/-- `' '.join(p.text.lower() for p in doc.paragraphs)`. -/
def toneScanText (doc : Doc) : Str :=
  List.intercalate [' '] (doc.paragraphs.map (fun p => pyLower p.text))

/-- `_detect_tone` (makenotice.py:242). -/
def _detect_tone (doc : Doc) : String :=
  let text := toneScanText doc
  if urgentKeys.any (fun k => containsSub k text) then "urgent"
  else if friendlyKeys.any (fun k => containsSub k text) then "friendly"
  else "formal"

/-- Tone resolution at the top of `_apply_tone`: `auto` detects, anything
outside the three known tones is coerced to `formal`. -/
def resolveTone (tone : String) (doc : Doc) : String :=
  let t := if tone = "auto" then _detect_tone doc else tone
  if t = "formal" ∨ t = "urgent" ∨ t = "friendly" then t else "formal"

/-- The body-paragraph part of `_apply_tone` (no font overrides are passed at
the call site, so the font branch is dead): urgent bolding/colouring on
paragraphs mentioning notice/urgent, then unconditional left alignment. -/
def toneParagraph (t : String) (p : Paragraph) : Paragraph :=
  let urgentRun := fun (r : Run) =>
    { r with bold := some true, color := some (0x99, 0x00, 0x00) }
  let p1 :=
    if t = "urgent" ∧
        (containsSub ("notice".toList) (pyLower p.text) ||
          containsSub ("urgent".toList) (pyLower p.text)) = true then
      { p with runs := p.runs.map urgentRun }
    else p
  { p1 with alignment := some ParAlign.left }

def toneCell (c : Cell) : Cell := { c with vAlign := some VAlign.center }

def toneRow (row : Row) : Row := { row with cells := row.cells.map toneCell }

def toneTable (t : Table) : Table :=
  { t with alignment := some TblAlign.center, rows := t.rows.map toneRow }

/-- `_apply_tone(doc, tone)` as called from `update_word_template`
(makenotice.py:447): no font overrides. -/
def _apply_tone (doc : Doc) (tone : String) : Doc :=
  let t := resolveTone tone doc
  { doc with paragraphs := doc.paragraphs.map (toneParagraph t),
             tables := doc.tables.map toneTable }

/-! ## Placeholder replacement (makenotice.py:449-461) -/

/-- Python `str.replace(old, new)`: leftmost, non-overlapping, all
occurrences; the empty pattern interleaves `new` around every character.
Structured with an explicit character budget (each step consumes at least
one character, so a budget of `s.length` is exact) to keep the function
kernel-reducible. -/
def pyReplaceGo (old new : Str) : Nat → Str → Str
  | _, [] => if old = [] then new else []
  | 0, s => s
  | fuel + 1, c :: rest =>
    if old ≠ [] ∧ old.isPrefixOf (c :: rest) then
      new ++ pyReplaceGo old new fuel ((c :: rest).drop old.length)
    else if old = [] then
      new ++ c :: pyReplaceGo old new fuel rest
    else
      c :: pyReplaceGo old new fuel rest

def pyReplace (old new : Str) (s : Str) : Str := pyReplaceGo old new s.length s

/-- `if placeholder in paragraph.text: paragraph.text = ...replace(...)`. -/
def replaceParagraph (ph bn : Str) (p : Paragraph) : Paragraph :=
  if containsSub ph p.text then p.setText (pyReplace ph bn p.text) else p

def replaceCell (ph bn : Str) (c : Cell) : Cell :=
  { c with paragraphs := c.paragraphs.map (replaceParagraph ph bn) }

def replaceRow (ph bn : Str) (row : Row) : Row :=
  { row with cells := row.cells.map (replaceCell ph bn) }

def replaceTable (ph bn : Str) (t : Table) : Table :=
  { t with rows := t.rows.map (replaceRow ph bn) }

/-- The replacement step over body paragraphs and all table cells. -/
def replaceDoc (ph bn : Str) (doc : Doc) : Doc :=
  { doc with paragraphs := doc.paragraphs.map (replaceParagraph ph bn),
             tables := doc.tables.map (replaceTable ph bn) }

/-! ## Accounts-table update (makenotice.py:463-499) -/

/-- `_apply_paragraph_style` (makenotice.py:284): set run fonts, then apply
the spacing components that are present. -/
def _apply_paragraph_style (fontName : String) (fontSize : Nat)
    (spacing : Option (Option Nat × Option Nat × Option Nat))
    (p : Paragraph) : Paragraph :=
  let setFont := fun (r : Run) =>
    { r with fontName := some fontName, fontSize := some fontSize }
  let p1 := { p with runs := p.runs.map setFont }
  match spacing with
  | none => p1
  | some (sb, sa, ls) =>
    { p1 with spaceBefore := sb.orElse (fun _ => p1.spaceBefore),
              spaceAfter := sa.orElse (fun _ => p1.spaceAfter),
              lineSpacing := ls.orElse (fun _ => p1.lineSpacing) }

/-- `_set_cell_margins(cell, 36, 36, 36, 36)` (makenotice.py:273). -/
def setCellMargins36 (c : Cell) : Cell := { c with margins := some (36, 36, 36, 36) }

/-- `_set_cell_borders` (makenotice.py:229). -/
def setCellBorders (c : Cell) : Cell := { c with hasBorders := true }

/-- `_set_cell_width` (makenotice.py:309): a `None` width is a no-op. -/
def setCellWidth (w : Option Nat) (c : Cell) : Cell :=
  match w with
  | none => c
  | some v => { c with width := some v }

/-- Python `x or y` on an optional row height: `None` and `0` are falsy. -/
def pyOrHeight (x : Option Nat) (y : Nat) : Nat :=
  match x with
  | some v => if v ≠ 0 then v else y
  | none => y

/-- Header-row restyling (makenotice.py:468-476): baseline font/spacing on
every cell paragraph, all runs bold, 36-twip margins, AT_LEAST height. -/
def styleHeaderCell (f : String) (sz : Nat)
    (sp : Option (Option Nat × Option Nat × Option Nat)) (c : Cell) : Cell :=
  let boldRuns := fun (p : Paragraph) =>
    { p with runs := p.runs.map (fun r => { r with bold := some true }) }
  let c1 := { c with paragraphs := c.paragraphs.map (_apply_paragraph_style f sz sp) }
  let c2 := { c1 with paragraphs := c1.paragraphs.map boldRuns }
  setCellMargins36 c2

def styleHeaderRow (f : String) (sz : Nat)
    (sp : Option (Option Nat × Option Nat × Option Nat))
    (hh : Option Nat) (row : Row) : Row :=
  { row with cells := row.cells.map (styleHeaderCell f sz sp),
             heightRule := some HeightRule.atLeast,
             height := some (pyOrHeight hh (ptEmu (sz + 6))) }

/-- Apply `f` to the element at index `i` (in-place cell assignment). -/
def modifyAt : List Cell → Nat → (Cell → Cell) → List Cell
  | [], _, _ => []
  | c :: tl, 0, f => f c :: tl
  | c :: tl, j + 1, f => c :: modifyAt tl j f

/-- `for idx, cell in enumerate(row.cells): _set_cell_width(cell,
header_widths[idx] if idx < len(header_widths) else None)`. -/
def setWidths (ws : List (Option Nat)) : Nat → List Cell → List Cell
  | _, [] => []
  | idx, c :: tl => setCellWidth (ws.getD idx none) c :: setWidths ws (idx + 1) tl

/-- One appended data row (makenotice.py:480-493): `add_row`, the three text
assignments, per-cell style/borders/margins, widths when captured, height. -/
def mkAccountRow (ncols : Nat) (f : String) (sz : Nat)
    (sp : Option (Option Nat × Option Nat × Option Nat))
    (hw : Option (List (Option Nat))) (hh : Option Nat)
    (acc : AccountRecord) : Row :=
  let cells0 := List.replicate ncols emptyCell
  let cells1 := modifyAt cells0 0 (fun c => c.setText acc.account_no)
  let cells2 := modifyAt cells1 1 (fun c => c.setText acc.account_name)
  let cells3 := modifyAt cells2 2 (fun c => c.setText acc.ifsc)
  let styleCell := fun (c : Cell) =>
    setCellMargins36 (setCellBorders
      { c with paragraphs := c.paragraphs.map (_apply_paragraph_style f sz sp) })
  let cells4 := cells3.map styleCell
  let cells5 :=
    match hw with
    | some ws => if ws ≠ [] then setWidths ws 0 cells4 else cells4
    | none => cells4
  { cells := cells5, heightRule := some HeightRule.atLeast,
    height := some (pyOrHeight hh (ptEmu (sz + 6))) }

/-- The in-place rewrite of the matched accounts table: restyled header row,
all data rows deleted, one appended row per record, grid style and borders. -/
def updateTableStruct (t : Table) (accounts : List AccountRecord) (f : String)
    (sz : Nat) (cap : HeaderCapture) : Table :=
  match t.rows with
  | [] => t
  | hr :: _ =>
    { t with
      rows := styleHeaderRow f sz cap.spacing cap.rowHeight hr ::
        accounts.map (mkAccountRow t.ncols f sz cap.spacing cap.widths cap.rowHeight),
      styleName := some "Table Grid",
      hasBorders := true }

/-- The accounts-table step of `update_word_template`: locate the first
matching table (post-replacement document state) and rewrite it; `none`
models the uncaught `IndexError` of the scan. -/
def updateAccountsStep (doc : Doc) (accounts : List AccountRecord) (f : String)
    (sz : Nat) (cap : HeaderCapture) : Option Doc :=
  match findAccountsTable doc.tables with
  | none => none
  | some none => some doc
  | some (some i) =>
    let upd := fun (j : Nat) (t : Table) =>
      if j = i then updateTableStruct t accounts f sz cap else t
    some { doc with tables := doc.tables.mapIdx upd }

/-! ## Nodal-officer relocation (makenotice.py:361-440, 501-515) -/

/-- The style captured from the paragraph following the first "nodal
officer" paragraph. -/
structure NodalBaseline where
  style_name : Option String
  alignment : Option ParAlign
  spacing : Option (Option Nat × Option Nat × Option Nat)
  indent : Option (Option Int × Option Int × Option Int)
  font_name : String
  font_size : Nat
  bold : Option Bool
deriving DecidableEq

def containsNodal (p : Paragraph) : Bool :=
  containsSub ("nodal officer".toList) (pyLower p.text)

def Cell.containsNodal (c : Cell) : Bool :=
  containsSub ("nodal officer".toList) (pyLower c.text)

/-- The follower of the first "nodal officer" body paragraph, when any. -/
def findNodalFollower : List Paragraph → Option Paragraph
  | [] => none
  | [_] => none
  | p :: q :: rest =>
    if containsNodal p then some q else findNodalFollower (q :: rest)

/-- The run loop of `_extract_nodal_baseline` (makenotice.py:381-390):
first-wins collection of font name, font size and bold. -/
def nodalRunFold (st : Option String × Option Nat × Option Bool) (r : Run) :
    Option String × Option Nat × Option Bool :=
  let n := match st.1 with
    | some _ => st.1
    | none => match r.fontName with
      | some nm => if nm ≠ "" then some nm else none
      | none => none
  let s := match st.2.1 with
    | some _ => st.2.1
    | none => match r.fontSize with
      | some sz => if sz ≠ 0 then some sz else none
      | none => none
  let b := match st.2.2 with
    | some _ => st.2.2
    | none => r.bold
  (n, s, b)

/-- `_extract_nodal_baseline` (makenotice.py:361). -/
def _extract_nodal_baseline (doc : Doc) (fallbackFont : String)
    (fallbackSize : Nat) : NodalBaseline :=
  match findNodalFollower doc.paragraphs with
  | none =>
    { style_name := none, alignment := none, spacing := none, indent := none,
      font_name := fallbackFont, font_size := fallbackSize, bold := none }
  | some np =>
    let coll := np.runs.foldl nodalRunFold (none, none, none)
    { style_name := np.styleName,
      alignment := np.alignment,
      spacing := some (np.spaceBefore, np.spaceAfter, np.lineSpacing),
      indent := some (np.leftIndent, np.rightIndent, np.firstLineIndent),
      font_name := coll.1.getD fallbackFont,
      font_size := coll.2.1.getD fallbackSize,
      bold := coll.2.2 }

/-- The run restyling inside `_apply_baseline_to_paragraph`
(makenotice.py:434-440). -/
def applyRunBaseline (nb : NodalBaseline) (r : Run) : Run :=
  let r1 := { r with fontName := some nb.font_name }
  let r2 := if nb.font_size ≠ 0 then { r1 with fontSize := some nb.font_size } else r1
  match nb.bold with
  | some b => { r2 with bold := some b }
  | none => r2

/-- `_apply_baseline_to_paragraph` (makenotice.py:406): set the text (one
fresh run), then style name / alignment / spacing / indent when present,
then restyle the runs. -/
def _apply_baseline_to_paragraph (bn : Str) (nb : NodalBaseline)
    (styles : List String) (p : Paragraph) : Paragraph :=
  let p1 := p.setText bn
  let p2 := match nb.style_name with
    | some s => if s ≠ "" ∧ s ∈ styles then { p1 with styleName := some s } else p1
    | none => p1
  let p3 := match nb.alignment with
    | some a => { p2 with alignment := some a }
    | none => p2
  let p4 := match nb.spacing with
    | none => p3
    | some (sb, sa, ls) =>
      { p3 with spaceBefore := sb.orElse (fun _ => p3.spaceBefore),
                spaceAfter := sa.orElse (fun _ => p3.spaceAfter),
                lineSpacing := ls.orElse (fun _ => p3.lineSpacing) }
  let p5 := match nb.indent with
    | none => p4
    | some (li, ri, fi) =>
      { p4 with leftIndent := li.orElse (fun _ => p4.leftIndent),
                rightIndent := ri.orElse (fun _ => p4.rightIndent),
                firstLineIndent := fi.orElse (fun _ => p4.firstLineIndent) }
  { p5 with runs := p5.runs.map (applyRunBaseline nb) }

/-- The body loop at makenotice.py:502-506: paragraph `i+1` is overwritten
while the iteration continues on the mutated sequence.  `cur` is the
paragraph currently being visited (already final, since a paragraph is only
ever written by the step before it is visited). -/
def nodalBodyGo (bn : Str) (nb : NodalBaseline) (styles : List String)
    (cur : Paragraph) : List Paragraph → List Paragraph
  | [] => [cur]
  | q :: rest =>
    if containsNodal cur then
      cur :: nodalBodyGo bn nb styles
        (_apply_baseline_to_paragraph bn nb styles q) rest
    else
      cur :: nodalBodyGo bn nb styles q rest

def nodalBodyPass (bn : Str) (nb : NodalBaseline) (styles : List String) :
    List Paragraph → List Paragraph
  | [] => []
  | p :: rest => nodalBodyGo bn nb styles p rest

def applyCellBaseline (bn : Str) (nb : NodalBaseline) (styles : List String)
    (c : Cell) : Cell :=
  { c with paragraphs := c.paragraphs.map (_apply_baseline_to_paragraph bn nb styles) }

/-- Processing row `r`'s cells against the row `s` below it
(makenotice.py:509-515): each column whose upper cell mentions "nodal
officer" rewrites the cell below.  (A matching column index beyond either
row cannot occur in a python-docx grid, where every row exposes one cell
per grid column.) -/
def nodalRowStep (bn : Str) (nb : NodalBaseline) (styles : List String)
    (r s : Row) : Row :=
  let overCol := fun (j : Nat) (sc : Cell) =>
    if j < r.cells.length ∧ Cell.containsNodal (r.cells.getD j emptyCell) = true then
      applyCellBaseline bn nb styles sc
    else sc
  { s with cells := s.cells.mapIdx overCol }

/-- The row-major table loop: row `r+1` is rewritten before being visited. -/
def nodalRowsGo (bn : Str) (nb : NodalBaseline) (styles : List String)
    (cur : Row) : List Row → List Row
  | [] => [cur]
  | s :: rest => cur :: nodalRowsGo bn nb styles (nodalRowStep bn nb styles cur s) rest

def nodalRowsPass (bn : Str) (nb : NodalBaseline) (styles : List String) :
    List Row → List Row
  | [] => []
  | r :: rest => nodalRowsGo bn nb styles r rest

def nodalTablesPass (bn : Str) (nb : NodalBaseline) (styles : List String)
    (ts : List Table) : List Table :=
  ts.map (fun t => { t with rows := nodalRowsPass bn nb styles t.rows })

/-- The document state after tone application and placeholder replacement
(makenotice.py:447-461). -/
def docAfterReplace (doc : Doc) (ph bn : Str) (tone : String) : Doc :=
  replaceDoc ph bn (_apply_tone doc tone)

/-- The two nodal-officer loops (makenotice.py:501-515): body paragraphs,
then table cells. -/
def nodalPhase (bn : Str) (nb : NodalBaseline) (d : Doc) : Doc :=
  let d4 := { d with paragraphs := nodalBodyPass bn nb d.styles d.paragraphs }
  { d4 with tables := nodalTablesPass bn nb d4.styles d4.tables }

/-! ## The full mutation pipeline of `update_word_template`
(makenotice.py:442-519), excluding load and save.  `none` models an
exception escaping to the surrounding `try` (which then returns `False`). -/

def generateNotice (doc : Doc) (bank_name : Str) (accounts : List AccountRecord)
    (placeholder : Str) (tone : String) (font_name : String) (font_size : Nat) :
    Option Doc :=
  match extract_template_baseline doc font_name font_size with
  | none => none
  | some (tmplFont, tmplSize, cap) =>
    let d2 := docAfterReplace doc placeholder bank_name tone
    match updateAccountsStep d2 accounts tmplFont tmplSize cap with
    | none => none
    | some d3 =>
      let nb := _extract_nodal_baseline d3 tmplFont tmplSize
      some (nodalPhase bank_name nb d3)

/-! ## Claim C7: tone resolution -/

/-- A paragraph holding one fresh run with the given text. -/
def paraOfText (t : Str) : Paragraph := { emptyParagraph with runs := [defaultRun t] }

/-- Modelled from the claim's wording for comparison: the plain (separator
free) lowercased concatenation of all paragraph texts. -/
def toneScanTextConcat (doc : Doc) : Str :=
  (doc.paragraphs.map (fun p => pyLower p.text)).flatten

/-- Modelled from the claim's wording for comparison: the tone the claim
predicts for `auto`, evaluated over the plain concatenation. -/
def claimResolvedTone (doc : Doc) : String :=
  let text := toneScanTextConcat doc
  if urgentKeys.any (fun k => containsSub k text) then "urgent"
  else if friendlyKeys.any (fun k => containsSub k text) then "friendly"
  else "formal"

/-- Two paragraphs whose texts only form an urgent keyword across the
paragraph boundary. -/
def c7Doc : Doc :=
  { paragraphs := [paraOfText "final".toList, paraOfText "notice".toList],
    tables := [], styles := [] }

/-- C7 counterexample: the code joins paragraph texts with single spaces, so
the document ["final", "notice"] resolves to `urgent`, while the claim's
plain concatenation "finalnotice" contains no keyword and predicts `formal`. -/
theorem C7_counterexample :
    resolveTone "auto" c7Doc = "urgent" ∧ claimResolvedTone c7Doc = "formal" := by
  decide

/-- C7 (amended: the scanned text is the SPACE-SEPARATED concatenation of
the lowercased paragraph texts): `auto` resolves to `urgent` iff an urgent
keyword occurs in that text, to `friendly` iff no urgent keyword but a
friendly keyword occurs, and to `formal` otherwise (urgent keywords take
priority); any explicit tone outside {formal, urgent, friendly, auto} is
coerced to `formal`. -/
theorem C7_tone_resolution_amended :
    ∀ (doc : Doc) (tone : String),
      (resolveTone "auto" doc = "urgent" ↔
          urgentKeys.any (fun k => containsSub k (toneScanText doc)) = true)
      ∧ (resolveTone "auto" doc = "friendly" ↔
          (urgentKeys.any (fun k => containsSub k (toneScanText doc)) = false ∧
            friendlyKeys.any (fun k => containsSub k (toneScanText doc)) = true))
      ∧ (resolveTone "auto" doc = "formal" ↔
          (urgentKeys.any (fun k => containsSub k (toneScanText doc)) = false ∧
            friendlyKeys.any (fun k => containsSub k (toneScanText doc)) = false))
      ∧ (tone ∉ (["formal", "urgent", "friendly", "auto"] : List String) →
          resolveTone tone doc = "formal") := by
  intro doc tone
  have hcoerce : tone ∉ (["formal", "urgent", "friendly", "auto"] : List String) →
      resolveTone tone doc = "formal" := by
    intro hn
    simp only [List.mem_cons, List.not_mem_nil, or_false, not_or] at hn
    obtain ⟨h1, h2, h3, h4⟩ := hn
    unfold resolveTone
    rw [if_neg h4, if_neg]
    rintro (h | h | h)
    · exact h1 h
    · exact h2 h
    · exact h3 h
  by_cases hU : urgentKeys.any (fun k => containsSub k (toneScanText doc)) = true
  · have hDet : _detect_tone doc = "urgent" := by
      unfold _detect_tone
      rw [if_pos hU]
    have hRes : resolveTone "auto" doc = "urgent" := by
      unfold resolveTone
      rw [if_pos rfl, hDet]
      decide
    refine ⟨?_, ?_, ?_, hcoerce⟩
    · rw [hRes]
      simp [hU]
    · rw [hRes]
      constructor
      · intro h
        exact absurd h (by decide)
      · rintro ⟨hfalse, -⟩
        rw [hU] at hfalse
        cases hfalse
    · rw [hRes]
      constructor
      · intro h
        exact absurd h (by decide)
      · rintro ⟨hfalse, -⟩
        rw [hU] at hfalse
        cases hfalse
  · have hU' : urgentKeys.any (fun k => containsSub k (toneScanText doc)) = false :=
      eq_false_of_ne_true hU
    by_cases hF : friendlyKeys.any (fun k => containsSub k (toneScanText doc)) = true
    · have hDet : _detect_tone doc = "friendly" := by
        unfold _detect_tone
        rw [if_neg (by rw [hU']; exact Bool.false_ne_true), if_pos hF]
      have hRes : resolveTone "auto" doc = "friendly" := by
        unfold resolveTone
        rw [if_pos rfl, hDet]
        decide
      refine ⟨?_, ?_, ?_, hcoerce⟩
      · rw [hRes]
        constructor
        · intro h
          exact absurd h (by decide)
        · intro h
          rw [h] at hU'
          cases hU'
      · rw [hRes]
        simp [hU', hF]
      · rw [hRes]
        constructor
        · intro h
          exact absurd h (by decide)
        · rintro ⟨-, hfalse⟩
          rw [hF] at hfalse
          cases hfalse
    · have hF' : friendlyKeys.any (fun k => containsSub k (toneScanText doc)) = false :=
        eq_false_of_ne_true hF
      have hDet : _detect_tone doc = "formal" := by
        unfold _detect_tone
        rw [if_neg (by rw [hU']; exact Bool.false_ne_true),
          if_neg (by rw [hF']; exact Bool.false_ne_true)]
      have hRes : resolveTone "auto" doc = "formal" := by
        unfold resolveTone
        rw [if_pos rfl, hDet]
        decide
      refine ⟨?_, ?_, ?_, hcoerce⟩
      · rw [hRes]
        constructor
        · intro h
          exact absurd h (by decide)
        · intro h
          rw [h] at hU'
          cases hU'
      · rw [hRes]
        constructor
        · intro h
          exact absurd h (by decide)
        · rintro ⟨-, h⟩
          rw [h] at hF'
          cases hF'
      · rw [hRes]
        simp [hU', hF']

/-- Witness for C7: an unknown explicit tone is coerced to formal on a
concrete document. -/
theorem C7_witness : resolveTone "casual" c7Doc = "formal" :=
  (C7_tone_resolution_amended c7Doc "casual").2.2.2 (by decide)

/-! ## Claim C4: document font baseline extraction -/

/-- The truthy font name a run contributes, if any. -/
def runNameVal (r : Run) : Option String :=
  match r.fontName with
  | some nm => if nm ≠ "" then some nm else none
  | none => none

/-- The truthy font size a run contributes, if any. -/
def runSizeVal (r : Run) : Option Nat :=
  match r.fontSize with
  | some sz => if sz ≠ 0 then some sz else none
  | none => none

/-- All runs of the document body in paragraph order. -/
def flatRuns (doc : Doc) : List Run := (doc.paragraphs.map Paragraph.runs).flatten

/-- Modelled from the claim's wording for comparison: the FIRST non-empty
font name across all runs in paragraph order. -/
def firstFontName (doc : Doc) : Option String := (flatRuns doc).findSome? runNameVal

/-- Modelled from the claim's wording for comparison: the FIRST non-empty
font size across all runs in paragraph order. -/
def firstFontSize (doc : Doc) : Option Nat := (flatRuns doc).findSome? runSizeVal

def runWithFont (nm : Option String) (sz : Option Nat) : Run :=
  { text := [], bold := none, fontName := nm, fontSize := sz, color := none }

/-- One paragraph, two runs: the first has only a font name, the second has
a different name and a size. -/
def c4Doc : Doc :=
  { paragraphs := [{ emptyParagraph with
      runs := [runWithFont (some "A") none, runWithFont (some "B") (some 10)] }],
    tables := [], styles := [] }

/-- C4 counterexample: the first non-empty font name is "A", but the code
keeps overwriting its candidate until both name and size are found, so the
extraction returns "B". -/
theorem C4_counterexample :
    firstFontName c4Doc = some "A" ∧ firstFontSize c4Doc = some 10 ∧
      extractFonts c4Doc "F" 8 = ("B", 10) := by
  decide

lemma scanRunsFont_cons (st : Option String × Option Nat) (r : Run) (rs : List Run) :
    scanRunsFont st (r :: rs) =
      (if fontStateDone (updRunFont st r) then updRunFont st r
       else scanRunsFont (updRunFont st r) rs) := rfl

lemma scanParasFont_cons (st : Option String × Option Nat) (p : Paragraph)
    (ps : List Paragraph) :
    scanParasFont st (p :: ps) =
      (if fontStateDone (scanRunsFont st p.runs) then scanRunsFont st p.runs
       else scanParasFont (scanRunsFont st p.runs) ps) := rfl

lemma scanRunsFont_append (l1 l2 : List Run) :
    ∀ st, fontStateDone st = false →
      scanRunsFont st (l1 ++ l2) =
        (if fontStateDone (scanRunsFont st l1) then scanRunsFont st l1
         else scanRunsFont (scanRunsFont st l1) l2) := by
  induction l1 with
  | nil =>
    intro st h
    simp only [List.nil_append]
    rw [show scanRunsFont st [] = st from rfl, h, if_neg Bool.false_ne_true]
  | cons r rs ih =>
    intro st h
    rw [List.cons_append, scanRunsFont_cons, scanRunsFont_cons]
    by_cases hd : fontStateDone (updRunFont st r) = true
    · rw [if_pos hd, if_pos hd, if_pos hd]
    · rw [if_neg hd, if_neg hd]
      exact ih (updRunFont st r) (eq_false_of_ne_true hd)

lemma scanParasFont_eq_flat :
    ∀ (ps : List Paragraph) st, fontStateDone st = false →
      scanParasFont st ps = scanRunsFont st ((ps.map Paragraph.runs).flatten) := by
  intro ps
  induction ps with
  | nil => intro st h; rfl
  | cons p ps ih =>
    intro st h
    rw [List.map_cons, List.flatten_cons, scanRunsFont_append _ _ st h,
      scanParasFont_cons]
    by_cases hd : fontStateDone (scanRunsFont st p.runs) = true
    · rw [if_pos hd, if_pos hd]
    · rw [if_neg hd, if_neg hd]
      exact ih _ (eq_false_of_ne_true hd)

lemma updRunFont_fst_of_no_name {r : Run} (h : runNameVal r = none)
    (st : Option String × Option Nat) : (updRunFont st r).1 = st.1 := by
  cases hr : r.fontName with
  | none => simp [updRunFont, hr]
  | some nm =>
    by_cases he : nm = ""
    · simp [updRunFont, hr, he]
    · exfalso
      simp [runNameVal, hr, he] at h

lemma updRunFont_snd_of_no_size {r : Run} (h : runSizeVal r = none)
    (st : Option String × Option Nat) : (updRunFont st r).2 = st.2 := by
  cases hr : r.fontSize with
  | none => simp [updRunFont, hr]
  | some sz =>
    by_cases he : sz = 0
    · simp [updRunFont, hr, he]
    · exfalso
      simp [runSizeVal, hr, he] at h

lemma scanRunsFont_fst_of_no_names {l : List Run}
    (h : ∀ r ∈ l, runNameVal r = none) :
    ∀ st, (scanRunsFont st l).1 = st.1 := by
  induction l with
  | nil => intro st; rfl
  | cons r rs ih =>
    intro st
    rw [scanRunsFont_cons]
    have hr := updRunFont_fst_of_no_name (h r (List.mem_cons_self _ _)) st
    by_cases hd : fontStateDone (updRunFont st r) = true
    · rw [if_pos hd]
      exact hr
    · rw [if_neg hd]
      rw [ih (fun x hx => h x (List.mem_cons_of_mem _ hx)) (updRunFont st r)]
      exact hr

lemma scanRunsFont_snd_of_no_sizes {l : List Run}
    (h : ∀ r ∈ l, runSizeVal r = none) :
    ∀ st, (scanRunsFont st l).2 = st.2 := by
  induction l with
  | nil => intro st; rfl
  | cons r rs ih =>
    intro st
    rw [scanRunsFont_cons]
    have hr := updRunFont_snd_of_no_size (h r (List.mem_cons_self _ _)) st
    by_cases hd : fontStateDone (updRunFont st r) = true
    · rw [if_pos hd]
      exact hr
    · rw [if_neg hd]
      rw [ih (fun x hx => h x (List.mem_cons_of_mem _ hx)) (updRunFont st r)]
      exact hr

/-- C4 (amended): the extraction scans the document's runs in paragraph
order, each run's non-empty font name and nonzero size OVERWRITING the
current candidates, and stops after the first run at which both are set; so
the returned values are the most recently seen ones at that point, not
necessarily the first ones.  Whichever was never found falls back to the
provided default. -/
theorem C4_font_extraction_amended :
    ∀ (doc : Doc) (fb : String) (fs : Nat),
      extractFonts doc fb fs =
        ((scanRunsFont (none, none) (flatRuns doc)).1.getD fb,
          (scanRunsFont (none, none) (flatRuns doc)).2.getD fs)
      ∧ ((∀ r ∈ flatRuns doc, runNameVal r = none) →
          (extractFonts doc fb fs).1 = fb)
      ∧ ((∀ r ∈ flatRuns doc, runSizeVal r = none) →
          (extractFonts doc fb fs).2 = fs) := by
  intro doc fb fs
  have hflat : scanParasFont (none, none) doc.paragraphs =
      scanRunsFont (none, none) (flatRuns doc) :=
    scanParasFont_eq_flat doc.paragraphs (none, none) rfl
  have hmain : extractFonts doc fb fs =
      ((scanRunsFont (none, none) (flatRuns doc)).1.getD fb,
        (scanRunsFont (none, none) (flatRuns doc)).2.getD fs) := by
    unfold extractFonts
    rw [hflat]
  refine ⟨hmain, ?_, ?_⟩
  · intro h
    rw [hmain]
    rw [scanRunsFont_fst_of_no_names h (none, none)]
    rfl
  · intro h
    rw [hmain]
    rw [scanRunsFont_snd_of_no_sizes h (none, none)]
    rfl

/-- Witness for C4: on a document with no run fonts at all, both fallbacks
are returned. -/
theorem C4_witness : extractFonts c7Doc "F" 9 = ("F", 9) := by
  have h := C4_font_extraction_amended c7Doc "F" 9
  have h1 := h.2.1 (by decide)
  have h2 := h.2.2 (by decide)
  exact Prod.ext h1 h2

/-! ## Claim C3: placeholder replacement -/

lemma pyReplaceGo_no_occurrence (old new : Str) :
    ∀ (fuel : Nat) (s : Str), ¬ (old <:+: s) → pyReplaceGo old new fuel s = s := by
  intro fuel
  induction fuel with
  | zero =>
    intro s h
    match s with
    | [] =>
      have hne : old ≠ [] := by
        rintro rfl
        exact h List.nil_infix
      show (if old = [] then new else []) = []
      rw [if_neg hne]
    | c :: rest => rfl
  | succ m ih =>
    intro s h
    match s with
    | [] =>
      have hne : old ≠ [] := by
        rintro rfl
        exact h List.nil_infix
      show (if old = [] then new else []) = []
      rw [if_neg hne]
    | c :: rest =>
      have hne : old ≠ [] := by
        rintro rfl
        exact h List.nil_infix
      have hnp : ¬ (old ≠ [] ∧ old.isPrefixOf (c :: rest) = true) := by
        rintro ⟨-, h2⟩
        exact h (List.isPrefixOf_iff_prefix.mp h2).isInfix
      show (if old ≠ [] ∧ old.isPrefixOf (c :: rest) = true then _
        else if old = [] then _ else c :: pyReplaceGo old new m rest) = c :: rest
      rw [if_neg hnp, if_neg hne]
      congr 1
      exact ih rest (fun hi => h (List.infix_cons hi))

lemma pyReplace_no_occurrence (old new : Str) :
    ∀ s : Str, ¬ (old <:+: s) → pyReplace old new s = s := by
  intro s h
  exact pyReplaceGo_no_occurrence old new s.length s h

lemma setText_text (p : Paragraph) (t : Str) : (p.setText t).text = t := by
  simp [Paragraph.setText, Paragraph.text, defaultRun]

lemma replaceParagraph_text (ph bn : Str) (p : Paragraph) :
    (replaceParagraph ph bn p).text = pyReplace ph bn p.text := by
  unfold replaceParagraph
  by_cases h : containsSub ph p.text = true
  · rw [if_pos h, setText_text]
  · rw [if_neg h]
    have hni : ¬ (ph <:+: p.text) := by
      intro hi
      exact h (by simpa [containsSub] using hi)
    rw [pyReplace_no_occurrence ph bn p.text hni]

lemma replaceParagraph_of_not_contains (ph bn : Str) (p : Paragraph)
    (h : containsSub ph p.text = false) : replaceParagraph ph bn p = p := by
  unfold replaceParagraph
  rw [h]
  simp

lemma toneParagraph_text (t : String) (p : Paragraph) :
    (toneParagraph t p).text = p.text := by
  unfold toneParagraph
  split
  · show Paragraph.text _ = _
    simp only [Paragraph.text, List.map_map]
    congr 1
  · rfl

lemma getD_map_of_lt {α β : Type} (l : List α) (f : α → β) (i : Nat) (d : β)
    (dd : α) (h : i < l.length) :
    (l.map f).getD i d = f (l.getD i dd) := by
  have hm : i < (l.map f).length := by simpa using h
  rw [List.getD_eq_getElem?_getD, List.getElem?_eq_getElem hm,
    List.getD_eq_getElem?_getD, List.getElem?_eq_getElem h]
  simp

/-- C3: after the tone step and the replacement step of `generateNotice`,
every body paragraph's text and every table-cell paragraph's text equals the
Python `str.replace` of its original text (placeholder → bank name), and a
paragraph not containing the placeholder keeps its text unchanged by this
step. -/
theorem C3_placeholder_replacement :
    ∀ (doc : Doc) (tone : String) (ph bn : Str),
      (docAfterReplace doc ph bn tone).paragraphs.length = doc.paragraphs.length
      ∧ (∀ i, i < doc.paragraphs.length →
          ((docAfterReplace doc ph bn tone).paragraphs.getD i default).text =
            pyReplace ph bn ((doc.paragraphs.getD i default).text)
          ∧ (containsSub ph ((doc.paragraphs.getD i default).text) = false →
              ((docAfterReplace doc ph bn tone).paragraphs.getD i default).text =
                (doc.paragraphs.getD i default).text))
      ∧ (∀ ti ri ci pi,
          ti < doc.tables.length →
          ri < (doc.tables.getD ti default).rows.length →
          ci < ((doc.tables.getD ti default).rows.getD ri default).cells.length →
          pi < (((doc.tables.getD ti default).rows.getD ri default).cells.getD
                  ci default).paragraphs.length →
          ((((((docAfterReplace doc ph bn tone).tables.getD ti default).rows.getD
                ri default).cells.getD ci default).paragraphs.getD pi default).text =
              pyReplace ph bn
                (((((doc.tables.getD ti default).rows.getD ri default).cells.getD
                    ci default).paragraphs.getD pi default).text)
            ∧ (containsSub ph
                  (((((doc.tables.getD ti default).rows.getD ri default).cells.getD
                      ci default).paragraphs.getD pi default).text) = false →
                (((((docAfterReplace doc ph bn tone).tables.getD ti default).rows.getD
                    ri default).cells.getD ci default).paragraphs.getD pi default).text =
                  ((((doc.tables.getD ti default).rows.getD ri default).cells.getD
                      ci default).paragraphs.getD pi default).text))) := by
  intro doc tone ph bn
  have hpar : (docAfterReplace doc ph bn tone).paragraphs =
      (doc.paragraphs.map (toneParagraph (resolveTone tone doc))).map
        (replaceParagraph ph bn) := rfl
  have htab : (docAfterReplace doc ph bn tone).tables =
      (doc.tables.map toneTable).map (replaceTable ph bn) := rfl
  refine ⟨by rw [hpar]; simp, ?_, ?_⟩
  · intro i hi
    have e1 : (docAfterReplace doc ph bn tone).paragraphs.getD i default =
        replaceParagraph ph bn
          (toneParagraph (resolveTone tone doc) (doc.paragraphs.getD i default)) := by
      rw [hpar,
        getD_map_of_lt (doc.paragraphs.map (toneParagraph (resolveTone tone doc)))
          (replaceParagraph ph bn) i default default (by simpa using hi),
        getD_map_of_lt doc.paragraphs (toneParagraph (resolveTone tone doc))
          i default default hi]
    constructor
    · rw [e1, replaceParagraph_text, toneParagraph_text]
    · intro hc
      rw [e1, replaceParagraph_of_not_contains _ _ _ (by rwa [toneParagraph_text]),
        toneParagraph_text]
  · intro ti ri ci pi hti hri hci hpi
    have e1 : (docAfterReplace doc ph bn tone).tables.getD ti default =
        replaceTable ph bn (toneTable (doc.tables.getD ti default)) := by
      rw [htab,
        getD_map_of_lt (doc.tables.map toneTable) (replaceTable ph bn)
          ti default default (by simpa using hti),
        getD_map_of_lt doc.tables toneTable ti default default hti]
    have e2 : ((docAfterReplace doc ph bn tone).tables.getD ti default).rows.getD
        ri default =
        replaceRow ph bn (toneRow ((doc.tables.getD ti default).rows.getD ri default)) := by
      rw [e1]
      show ((((doc.tables.getD ti default).rows.map toneRow).map
        (replaceRow ph bn)).getD ri default) = _
      rw [getD_map_of_lt _ (replaceRow ph bn) ri default default (by simpa using hri),
        getD_map_of_lt _ toneRow ri default default hri]
    have e3 : (((docAfterReplace doc ph bn tone).tables.getD ti default).rows.getD
        ri default).cells.getD ci default =
        replaceCell ph bn (toneCell
          (((doc.tables.getD ti default).rows.getD ri default).cells.getD ci default)) := by
      rw [e2]
      show ((((doc.tables.getD ti default).rows.getD ri default).cells.map
        toneCell).map (replaceCell ph bn)).getD ci default = _
      rw [getD_map_of_lt _ (replaceCell ph bn) ci default default (by simpa using hci),
        getD_map_of_lt _ toneCell ci default default hci]
    have e4 : ((((docAfterReplace doc ph bn tone).tables.getD ti default).rows.getD
        ri default).cells.getD ci default).paragraphs.getD pi default =
        replaceParagraph ph bn
          ((((doc.tables.getD ti default).rows.getD ri default).cells.getD
            ci default).paragraphs.getD pi default) := by
      rw [e3]
      show ((((doc.tables.getD ti default).rows.getD ri default).cells.getD
        ci default).paragraphs.map (replaceParagraph ph bn)).getD pi default = _
      rw [getD_map_of_lt _ (replaceParagraph ph bn) pi default default hpi]
    constructor
    · rw [e4, replaceParagraph_text]
    · intro hc
      rw [e4, replaceParagraph_of_not_contains _ _ _ hc]

def c3Doc : Doc :=
  { paragraphs := [paraOfText "Dear ICICI BANK".toList],
    tables := [], styles := [] }

/-- Witness for C3: the body conclusion instantiated at index 0 of a
concrete document containing the placeholder. -/
theorem C3_witness :
    ((docAfterReplace c3Doc ("ICICI BANK".toList) ("Z".toList) "formal").paragraphs.getD
        0 default).text =
      pyReplace ("ICICI BANK".toList) ("Z".toList)
        ((c3Doc.paragraphs.getD 0 default).text) :=
  ((C3_placeholder_replacement c3Doc "formal" ("ICICI BANK".toList)
      ("Z".toList)).2.1 0 (by decide)).1

/-! ## Claim C9: error signalling and batch isolation

`update_word_template` wraps load, mutation and save in one `try`/`except`
returning `False`; failures of the external operations are modelled as
injected outcomes: a failed load is `none`, a failed save is `saveOk =
false`, and a mutation-time exception is `generateNotice = none`. -/

/-- `update_word_template` (makenotice.py:442-522) as a Boolean-returning
function of the injected load/save outcomes. -/
def update_word_template (loadResult : Option Doc) (saveOk : Bool)
    (bank_name : Str) (accounts : List AccountRecord) (placeholder : Str)
    (tone : String) (font_name : String) (font_size : Nat) : Bool :=
  match loadResult with
  | none => false
  | some doc =>
    match generateNotice doc bank_name accounts placeholder tone font_name font_size with
    | none => false
    | some _ => saveOk

/-- The per-group loop of `main` (makenotice.py:569-580): returns
(success count, attempted count). -/
def mainLoop (loadResult : Option Doc) (saveOk : Str → Bool) (groups : Grouped)
    (placeholder : Str) (tone : String) (font_name : String) (font_size : Nat) :
    Nat × Nat :=
  groups.foldl
    (fun acc g =>
      if update_word_template loadResult (saveOk g.1)
          ((get_bank_name (String.mk g.1)).toList) g.2 placeholder tone
          font_name font_size then
        (acc.1 + 1, acc.2 + 1)
      else (acc.1, acc.2 + 1))
    (0, 0)

lemma mainLoop_fold (loadResult : Option Doc) (saveOk : Str → Bool)
    (placeholder : Str) (tone : String) (font_name : String) (font_size : Nat) :
    ∀ (groups : Grouped) (acc : Nat × Nat),
      (groups.foldl
        (fun acc g =>
          if update_word_template loadResult (saveOk g.1)
              ((get_bank_name (String.mk g.1)).toList) g.2 placeholder tone
              font_name font_size then
            (acc.1 + 1, acc.2 + 1)
          else (acc.1, acc.2 + 1)) acc) =
      (acc.1 + (groups.filter (fun g =>
          update_word_template loadResult (saveOk g.1)
            ((get_bank_name (String.mk g.1)).toList) g.2 placeholder tone
            font_name font_size)).length,
        acc.2 + groups.length) := by
  intro groups
  induction groups with
  | nil => intro acc; simp
  | cons g gs ih =>
    intro acc
    rw [List.foldl_cons]
    by_cases hg : update_word_template loadResult (saveOk g.1)
        ((get_bank_name (String.mk g.1)).toList) g.2 placeholder tone
        font_name font_size = true
    · rw [if_pos hg, ih]
      rw [List.filter_cons, if_pos (by exact hg)]
      simp only [List.length_cons]
      rw [Prod.mk.injEq]
      constructor <;> omega
    · rw [if_neg hg, ih]
      rw [List.filter_cons, if_neg (by exact hg)]
      simp only [List.length_cons]
      rw [Prod.mk.injEq]
      constructor <;> omega

/-- C9: the mutation pipeline signals success or failure strictly as a
Boolean — `false` whenever the load fails, the in-memory mutation raises, or
the save fails, `true` otherwise — and the orchestrator attempts every
routing-code group regardless of individual failures, counting exactly the
successful ones. -/
theorem C9_error_isolation :
    ∀ (loadResult : Option Doc) (saveOk : Str → Bool) (groups : Grouped)
      (ph : Str) (tone : String) (fn : String) (fs : Nat),
      (mainLoop loadResult saveOk groups ph tone fn fs).2 = groups.length
      ∧ (mainLoop loadResult saveOk groups ph tone fn fs).1 =
          (groups.filter (fun g =>
            update_word_template loadResult (saveOk g.1)
              ((get_bank_name (String.mk g.1)).toList) g.2 ph tone fn fs)).length
      ∧ (∀ (sv : Bool) (bn : Str) (accs : List AccountRecord),
          update_word_template none sv bn accs ph tone fn fs = false)
      ∧ (∀ (doc : Doc) (sv : Bool) (bn : Str) (accs : List AccountRecord),
          update_word_template (some doc) sv bn accs ph tone fn fs = true ↔
            ((generateNotice doc bn accs ph tone fn fs).isSome ∧ sv = true)) := by
  intro loadResult saveOk groups ph tone fn fs
  have hfold := mainLoop_fold loadResult saveOk ph tone fn fs groups (0, 0)
  refine ⟨?_, ?_, ?_, ?_⟩
  · unfold mainLoop
    rw [hfold]
    simp
  · unfold mainLoop
    rw [hfold]
    simp
  · intro sv bn accs
    rfl
  · intro doc sv bn accs
    unfold update_word_template
    cases hg : generateNotice doc bn accs ph tone fn fs with
    | none => simp [hg]
    | some out => simp [hg]

/-- Witness for C9: a failing load is reported as `false` on concrete
arguments, via the theorem's third conjunct. -/
theorem C9_witness :
    update_word_template none true ("X".toList) [] ("ICICI BANK".toList)
      "formal" "Arial" 8 = false :=
  (C9_error_isolation none (fun _ => true) [] ("ICICI BANK".toList) "formal"
    "Arial" 8).2.2.1 true ("X".toList) []

/-! ## Claim C6: nodal-officer relocation -/

/-- What `_apply_baseline_to_paragraph` guarantees on its output: the text is
the bank name and every present baseline component has been applied. -/
def baselineApplied (bn : Str) (nb : NodalBaseline) (styles : List String)
    (p : Paragraph) : Prop :=
  p.text = bn
  ∧ (∀ s, nb.style_name = some s → s ≠ "" → s ∈ styles → p.styleName = some s)
  ∧ (∀ a, nb.alignment = some a → p.alignment = some a)
  ∧ (∀ sb sa ls, nb.spacing = some (sb, sa, ls) →
      (∀ v, sb = some v → p.spaceBefore = some v) ∧
        (∀ v, sa = some v → p.spaceAfter = some v) ∧
        (∀ v, ls = some v → p.lineSpacing = some v))
  ∧ (∀ li ri fi, nb.indent = some (li, ri, fi) →
      (∀ v, li = some v → p.leftIndent = some v) ∧
        (∀ v, ri = some v → p.rightIndent = some v) ∧
        (∀ v, fi = some v → p.firstLineIndent = some v))
  ∧ (∀ r ∈ p.runs,
      r.fontName = some nb.font_name
        ∧ (nb.font_size ≠ 0 → r.fontSize = some nb.font_size)
        ∧ (∀ b, nb.bold = some b → r.bold = some b))

lemma applyRunBaseline_text (nb : NodalBaseline) (r : Run) :
    (applyRunBaseline nb r).text = r.text := by
  unfold applyRunBaseline
  rcases nb.bold with _ | b <;> split <;> rfl

lemma applyRunBaseline_fontName (nb : NodalBaseline) (r : Run) :
    (applyRunBaseline nb r).fontName = some nb.font_name := by
  unfold applyRunBaseline
  rcases nb.bold with _ | b <;> split <;> rfl

lemma applyRunBaseline_fontSize (nb : NodalBaseline) (r : Run)
    (h : nb.font_size ≠ 0) :
    (applyRunBaseline nb r).fontSize = some nb.font_size := by
  unfold applyRunBaseline
  rcases nb.bold with _ | b
  · split
    · rfl
    · next hno => exact absurd h hno
  · split
    · rfl
    · next hno => exact absurd h hno

lemma applyRunBaseline_bold (nb : NodalBaseline) (r : Run) (b : Bool)
    (h : nb.bold = some b) :
    (applyRunBaseline nb r).bold = some b := by
  unfold applyRunBaseline
  rw [h]

lemma abp_runs (bn : Str) (nb : NodalBaseline) (styles : List String)
    (q : Paragraph) :
    (_apply_baseline_to_paragraph bn nb styles q).runs =
      [applyRunBaseline nb (defaultRun bn)] := by
  unfold _apply_baseline_to_paragraph
  rcases nb.style_name with _ | s <;>
    rcases nb.alignment with _ | a <;>
      rcases nb.spacing with _ | ⟨sb, sa, ls⟩ <;>
        rcases nb.indent with _ | ⟨li, ri, fi⟩ <;>
          dsimp only <;>
            first
              | rfl
              | (split <;> rfl)

lemma abp_styleName (bn : Str) (nb : NodalBaseline) (styles : List String)
    (q : Paragraph) (s : String) (h : nb.style_name = some s) (h1 : s ≠ "")
    (h2 : s ∈ styles) :
    (_apply_baseline_to_paragraph bn nb styles q).styleName = some s := by
  unfold _apply_baseline_to_paragraph
  rw [h]
  rcases nb.alignment with _ | a <;>
    rcases nb.spacing with _ | ⟨sb, sa, ls⟩ <;>
      rcases nb.indent with _ | ⟨li, ri, fi⟩ <;>
        (dsimp only; rw [if_pos ⟨h1, h2⟩])

lemma abp_alignment (bn : Str) (nb : NodalBaseline) (styles : List String)
    (q : Paragraph) (a : ParAlign) (h : nb.alignment = some a) :
    (_apply_baseline_to_paragraph bn nb styles q).alignment = some a := by
  unfold _apply_baseline_to_paragraph
  rw [h]
  rcases nb.style_name with _ | s <;>
    rcases nb.spacing with _ | ⟨sb, sa, ls⟩ <;>
      rcases nb.indent with _ | ⟨li, ri, fi⟩ <;>
        dsimp only <;>
          first
            | rfl
            | (split <;> rfl)

lemma abp_spacing (bn : Str) (nb : NodalBaseline) (styles : List String)
    (q : Paragraph) (sb sa ls : Option Nat) (h : nb.spacing = some (sb, sa, ls)) :
    (∀ v, sb = some v →
        (_apply_baseline_to_paragraph bn nb styles q).spaceBefore = some v)
    ∧ (∀ v, sa = some v →
        (_apply_baseline_to_paragraph bn nb styles q).spaceAfter = some v)
    ∧ (∀ v, ls = some v →
        (_apply_baseline_to_paragraph bn nb styles q).lineSpacing = some v) := by
  unfold _apply_baseline_to_paragraph
  rw [h]
  refine ⟨fun v hv => ?_, fun v hv => ?_, fun v hv => ?_⟩ <;>
    rw [hv] <;>
      rcases nb.style_name with _ | s <;>
        rcases nb.alignment with _ | a <;>
          rcases nb.indent with _ | ⟨li, ri, fi⟩ <;>
            dsimp only <;>
              first
                | rfl
                | (split <;> rfl)

lemma abp_indent (bn : Str) (nb : NodalBaseline) (styles : List String)
    (q : Paragraph) (li ri fi : Option Int) (h : nb.indent = some (li, ri, fi)) :
    (∀ v, li = some v →
        (_apply_baseline_to_paragraph bn nb styles q).leftIndent = some v)
    ∧ (∀ v, ri = some v →
        (_apply_baseline_to_paragraph bn nb styles q).rightIndent = some v)
    ∧ (∀ v, fi = some v →
        (_apply_baseline_to_paragraph bn nb styles q).firstLineIndent = some v) := by
  unfold _apply_baseline_to_paragraph
  rw [h]
  refine ⟨fun v hv => ?_, fun v hv => ?_, fun v hv => ?_⟩ <;>
    rw [hv] <;>
      rcases nb.style_name with _ | s <;>
        rcases nb.alignment with _ | a <;>
          rcases nb.spacing with _ | ⟨sb, sa, ls⟩ <;>
            dsimp only <;>
              first
                | rfl
                | (split <;> rfl)


lemma baselineApplied_of_apply (bn : Str) (nb : NodalBaseline)
    (styles : List String) (q : Paragraph) :
    baselineApplied bn nb styles (_apply_baseline_to_paragraph bn nb styles q) := by
  refine ⟨?_, ?_, ?_, ?_, ?_, ?_⟩
  · show Paragraph.text _ = bn
    unfold Paragraph.text
    rw [abp_runs]
    simp [applyRunBaseline_text, defaultRun]
  · intro s h h1 h2
    exact abp_styleName bn nb styles q s h h1 h2
  · intro a h
    exact abp_alignment bn nb styles q a h
  · intro sb sa ls h
    exact abp_spacing bn nb styles q sb sa ls h
  · intro li ri fi h
    exact abp_indent bn nb styles q li ri fi h
  · intro r hr
    rw [abp_runs] at hr
    have hr' := List.mem_singleton.mp hr
    subst hr'
    exact ⟨applyRunBaseline_fontName nb _,
      fun hfs => applyRunBaseline_fontSize nb _ hfs,
      fun b hb => applyRunBaseline_bold nb _ b hb⟩

lemma getD_mapIdx_of_lt {α β : Type} (l : List α) (f : Nat → α → β) (i : Nat)
    (d : β) (dd : α) (h : i < l.length) :
    (l.mapIdx f).getD i d = f i (l.getD i dd) := by
  have hm : i < (l.mapIdx f).length := by simpa using h
  rw [List.getD_eq_getElem?_getD, List.getElem?_eq_getElem hm,
    List.getD_eq_getElem?_getD, List.getElem?_eq_getElem h]
  simp

lemma getD_of_length_le {α : Type} (l : List α) (i : Nat) (d : α)
    (h : l.length ≤ i) : l.getD i d = d := by
  rw [List.getD_eq_getElem?_getD, List.getElem?_eq_none h]
  rfl

lemma nodalBodyPass_cons2 (bn : Str) (nb : NodalBaseline) (styles : List String)
    (p q : Paragraph) (rest : List Paragraph) :
    nodalBodyPass bn nb styles (p :: q :: rest) =
      (if containsNodal p then
        p :: nodalBodyPass bn nb styles
          (_apply_baseline_to_paragraph bn nb styles q :: rest)
      else p :: nodalBodyPass bn nb styles (q :: rest)) := rfl

lemma nodalBodyPass_nil (bn : Str) (nb : NodalBaseline) (styles : List String) :
    nodalBodyPass bn nb styles [] = [] := rfl

lemma nodalBodyPass_one (bn : Str) (nb : NodalBaseline) (styles : List String)
    (p : Paragraph) : nodalBodyPass bn nb styles [p] = [p] := rfl

lemma nodalBodyPass_getD_zero (bn : Str) (nb : NodalBaseline)
    (styles : List String) (l : List Paragraph) (d : Paragraph) :
    (nodalBodyPass bn nb styles l).getD 0 d = l.getD 0 d := by
  match l with
  | [] => rw [nodalBodyPass_nil]
  | [p] => rw [nodalBodyPass_one]
  | p :: q :: rest =>
    rw [nodalBodyPass_cons2]
    split <;> rfl

lemma nodalBodyPass_spec (bn : Str) (nb : NodalBaseline) (styles : List String) :
    ∀ (n : Nat) (l : List Paragraph), l.length ≤ n →
      ∀ i, i + 1 < l.length →
        containsNodal ((nodalBodyPass bn nb styles l).getD i default) = true →
        baselineApplied bn nb styles
          ((nodalBodyPass bn nb styles l).getD (i + 1) default) := by
  intro n
  induction n with
  | zero =>
    intro l hl i hi _
    omega
  | succ m ih =>
    intro l hl i hi hc
    match l with
    | [] => simp at hi
    | [p] => simp at hi
    | p :: q :: rest =>
      rw [nodalBodyPass_cons2] at hc ⊢
      by_cases hp : containsNodal p = true
      · rw [if_pos hp] at hc ⊢
        match i with
        | 0 =>
          rw [List.getD_cons_succ, nodalBodyPass_getD_zero]
          exact baselineApplied_of_apply bn nb styles q
        | i' + 1 =>
          rw [List.getD_cons_succ] at hc
          rw [List.getD_cons_succ]
          refine ih (_apply_baseline_to_paragraph bn nb styles q :: rest)
            (by simp at hl ⊢; omega) i' ?_ hc
          simp at hi ⊢
          omega
      · rw [if_neg hp] at hc ⊢
        match i with
        | 0 =>
          rw [List.getD_cons_zero] at hc
          exact absurd hc hp
        | i' + 1 =>
          rw [List.getD_cons_succ] at hc
          rw [List.getD_cons_succ]
          refine ih (q :: rest) (by simp at hl ⊢; omega) i' ?_ hc
          simp at hi ⊢
          omega

/-- All paragraphs of a cell carry the bank name and the baseline. -/
def cellBaselineApplied (bn : Str) (nb : NodalBaseline) (styles : List String)
    (c : Cell) : Prop :=
  ∀ p ∈ c.paragraphs, baselineApplied bn nb styles p

lemma cellBaselineApplied_of_apply (bn : Str) (nb : NodalBaseline)
    (styles : List String) (c : Cell) :
    cellBaselineApplied bn nb styles (applyCellBaseline bn nb styles c) := by
  intro p hp
  unfold applyCellBaseline at hp
  simp only [List.mem_map] at hp
  obtain ⟨q, -, hq⟩ := hp
  rw [← hq]
  exact baselineApplied_of_apply bn nb styles q

lemma containsNodal_emptyCell : Cell.containsNodal emptyCell = false := by decide

lemma nodalRowStep_cells_length (bn : Str) (nb : NodalBaseline)
    (styles : List String) (r s : Row) :
    (nodalRowStep bn nb styles r s).cells.length = s.cells.length := by
  unfold nodalRowStep
  simp

lemma nodalRowStep_cells_getD (bn : Str) (nb : NodalBaseline)
    (styles : List String) (r s : Row) (j : Nat) (hj : j < s.cells.length) :
    (nodalRowStep bn nb styles r s).cells.getD j default =
      (if j < r.cells.length ∧ Cell.containsNodal (r.cells.getD j emptyCell) = true
       then applyCellBaseline bn nb styles (s.cells.getD j default)
       else s.cells.getD j default) := by
  unfold nodalRowStep
  exact getD_mapIdx_of_lt s.cells _ j default default hj

lemma nodalRowsPass_cons2 (bn : Str) (nb : NodalBaseline) (styles : List String)
    (r s : Row) (rest : List Row) :
    nodalRowsPass bn nb styles (r :: s :: rest) =
      r :: nodalRowsPass bn nb styles (nodalRowStep bn nb styles r s :: rest) := rfl

lemma nodalRowsPass_nil (bn : Str) (nb : NodalBaseline) (styles : List String) :
    nodalRowsPass bn nb styles [] = [] := rfl

lemma nodalRowsPass_one (bn : Str) (nb : NodalBaseline) (styles : List String)
    (r : Row) : nodalRowsPass bn nb styles [r] = [r] := rfl

lemma nodalRowsPass_getD_zero (bn : Str) (nb : NodalBaseline)
    (styles : List String) (l : List Row) (d : Row) :
    (nodalRowsPass bn nb styles l).getD 0 d = l.getD 0 d := by
  match l with
  | [] => rw [nodalRowsPass_nil]
  | [r] => rw [nodalRowsPass_one]
  | r :: s :: rest =>
    rw [nodalRowsPass_cons2]
    rfl

lemma nodalRowsPass_spec (bn : Str) (nb : NodalBaseline) (styles : List String) :
    ∀ (n : Nat) (l : List Row), l.length ≤ n →
      ∀ i j, i + 1 < l.length →
        Cell.containsNodal
          (((nodalRowsPass bn nb styles l).getD i default).cells.getD j emptyCell) =
          true →
        j < ((nodalRowsPass bn nb styles l).getD (i + 1) default).cells.length →
        cellBaselineApplied bn nb styles
          (((nodalRowsPass bn nb styles l).getD (i + 1) default).cells.getD
            j default) := by
  intro n
  induction n with
  | zero =>
    intro l hl i j hi _ _
    omega
  | succ m ih =>
    intro l hl i j hi hc hj
    match l with
    | [] => simp at hi
    | [r] => simp at hi
    | r :: s :: rest =>
      rw [nodalRowsPass_cons2] at hc hj ⊢
      match i with
      | 0 =>
        rw [List.getD_cons_zero] at hc
        rw [List.getD_cons_succ, nodalRowsPass_getD_zero] at hj ⊢
        rw [List.getD_cons_zero] at hj ⊢
        have hjr : j < r.cells.length := by
          by_contra hno
          rw [getD_of_length_le r.cells j emptyCell (by omega)] at hc
          rw [containsNodal_emptyCell] at hc
          cases hc
        have hjs : j < s.cells.length := by
          rw [nodalRowStep_cells_length] at hj
          exact hj
        rw [nodalRowStep_cells_getD bn nb styles r s j hjs,
          if_pos ⟨hjr, hc⟩]
        exact cellBaselineApplied_of_apply bn nb styles _
      | i' + 1 =>
        rw [List.getD_cons_succ] at hc hj ⊢
        refine ih (nodalRowStep bn nb styles r s :: rest)
          (by simp at hl ⊢; omega) i' j ?_ hc hj
        simp at hi ⊢
        omega

/-- C6: in the nodal-officer phase of `generateNotice` (whose output the
pipeline returns), every body paragraph of the RESULT that mentions "nodal
officer" and has a following paragraph is followed by a paragraph whose text
is the bank name and which carries the captured baseline; and every table
cell of the result that mentions "nodal officer" and has a cell below it in
the same column sits above a cell all of whose paragraphs carry the bank
name and the baseline. -/
theorem C6_nodal_officer :
    ∀ (bn : Str) (nb : NodalBaseline) (d : Doc),
      (∀ i, i + 1 < (nodalPhase bn nb d).paragraphs.length →
        containsNodal ((nodalPhase bn nb d).paragraphs.getD i default) = true →
        baselineApplied bn nb d.styles
          ((nodalPhase bn nb d).paragraphs.getD (i + 1) default))
      ∧ (∀ ti i j, ti < d.tables.length →
          i + 1 < (((nodalPhase bn nb d).tables.getD ti default).rows.length) →
          Cell.containsNodal
            ((((nodalPhase bn nb d).tables.getD ti default).rows.getD
              i default).cells.getD j emptyCell) = true →
          j < (((nodalPhase bn nb d).tables.getD ti default).rows.getD
              (i + 1) default).cells.length →
          cellBaselineApplied bn nb d.styles
            ((((nodalPhase bn nb d).tables.getD ti default).rows.getD
              (i + 1) default).cells.getD j default)) := by
  intro bn nb d
  have hpar : (nodalPhase bn nb d).paragraphs =
      nodalBodyPass bn nb d.styles d.paragraphs := rfl
  have hlen : (nodalBodyPass bn nb d.styles d.paragraphs).length =
      d.paragraphs.length := by
    have : ∀ (n : Nat) (l : List Paragraph), l.length ≤ n →
        (nodalBodyPass bn nb d.styles l).length = l.length := by
      intro n
      induction n with
      | zero =>
        intro l hl
        match l with
        | [] => rw [nodalBodyPass_nil]
      | succ m ih =>
        intro l hl
        match l with
        | [] => rw [nodalBodyPass_nil]
        | [p] => rw [nodalBodyPass_one]
        | p :: q :: rest =>
          rw [nodalBodyPass_cons2]
          split <;> simp only [List.length_cons] <;>
            rw [ih _ (by simp at hl ⊢; omega)] <;> simp
    exact this d.paragraphs.length d.paragraphs (le_refl _)
  constructor
  · intro i hi hc
    rw [hpar] at hi hc ⊢
    rw [hlen] at hi
    exact nodalBodyPass_spec bn nb d.styles d.paragraphs.length d.paragraphs
      (le_refl _) i hi hc
  · intro ti i j hti hi hc hj
    have htab : (nodalPhase bn nb d).tables =
        (d.tables.map (fun t =>
          { t with rows := nodalRowsPass bn nb d.styles t.rows })) := rfl
    have hGet : (nodalPhase bn nb d).tables.getD ti default =
        { d.tables.getD ti default with
            rows := nodalRowsPass bn nb d.styles (d.tables.getD ti default).rows } := by
      rw [htab, getD_map_of_lt d.tables _ ti default default hti]
    rw [hGet] at hi hc hj ⊢
    have hlenrows : (nodalRowsPass bn nb d.styles
        (d.tables.getD ti default).rows).length =
        (d.tables.getD ti default).rows.length := by
      have : ∀ (n : Nat) (l : List Row), l.length ≤ n →
          (nodalRowsPass bn nb d.styles l).length = l.length := by
        intro n
        induction n with
        | zero =>
          intro l hl
          match l with
          | [] => rw [nodalRowsPass_nil]
        | succ m ih =>
          intro l hl
          match l with
          | [] => rw [nodalRowsPass_nil]
          | [r] => rw [nodalRowsPass_one]
          | r :: s :: rest =>
            rw [nodalRowsPass_cons2]
            simp only [List.length_cons]
            rw [ih _ (by simp at hl ⊢; omega)]
            simp
      exact this _ _ (le_refl _)
    rw [hlenrows] at hi
    exact nodalRowsPass_spec bn nb d.styles
      (d.tables.getD ti default).rows.length (d.tables.getD ti default).rows
      (le_refl _) i j hi hc hj

def c6Nb : NodalBaseline :=
  { style_name := none, alignment := none, spacing := none, indent := none,
    font_name := "Arial", font_size := 9, bold := none }

def c6Doc : Doc :=
  { paragraphs := [paraOfText "The Nodal Officer".toList, paraOfText "x".toList],
    tables := [], styles := [] }

/-- Witness for C6: on a concrete document whose first paragraph mentions the
nodal officer, the following paragraph of the result holds the bank name. -/
theorem C6_witness :
    ((nodalPhase ("B".toList) c6Nb c6Doc).paragraphs.getD 1 default).text =
      "B".toList :=
  ((C6_nodal_officer ("B".toList) c6Nb c6Doc).1 0 (by decide) (by decide)).1

/-! ## Claim C1: the accounts-table rewrite -/

lemma findAccountsTableAux_spec :
    ∀ (ts : List Table) (k i : Nat),
      findAccountsTableAux k ts = some (some i) →
      k ≤ i ∧ i - k < ts.length ∧
        (ts.getD (i - k) default).ncols = 3 ∧
        (ts.getD (i - k) default).rows ≠ [] ∧
        headerMatch ((ts.getD (i - k) default).rows.getD 0 default) = true := by
  intro ts
  induction ts with
  | nil =>
    intro k i h
    simp [findAccountsTableAux] at h
  | cons t ts ih =>
    intro k i h
    rw [findAccountsTableAux] at h
    by_cases hncols : t.ncols = 3
    · rw [if_pos hncols] at h
      match hrows : t.rows with
      | [] =>
        rw [hrows] at h
        cases h
      | r0 :: rest =>
        rw [hrows] at h
        dsimp only at h
        by_cases hm : headerMatch r0 = true
        · rw [if_pos hm] at h
          have hik : i = k := by
            have := Option.some.inj (Option.some.inj h)
            omega
          subst hik
          refine ⟨le_refl _, ?_, ?_, ?_, ?_⟩ <;> simp [hncols, hrows, hm]
        · rw [if_neg hm] at h
          obtain ⟨h1, h2, h3, h4, h5⟩ := ih (k + 1) i h
          have hik : i - k = (i - (k + 1)) + 1 := by omega
          rw [hik]
          refine ⟨by omega, by simp; omega, ?_, ?_, ?_⟩ <;>
            rw [List.getD_cons_succ] <;> assumption
    · rw [if_neg hncols] at h
      obtain ⟨h1, h2, h3, h4, h5⟩ := ih (k + 1) i h
      have hik : i - k = (i - (k + 1)) + 1 := by omega
      rw [hik]
      refine ⟨by omega, by simp; omega, ?_, ?_, ?_⟩ <;>
        rw [List.getD_cons_succ] <;> assumption

lemma findAccountsTable_spec {ts : List Table} {i : Nat}
    (h : findAccountsTable ts = some (some i)) :
    i < ts.length ∧ (ts.getD i default).ncols = 3 ∧
      (ts.getD i default).rows ≠ [] ∧
      headerMatch ((ts.getD i default).rows.getD 0 default) = true := by
  have := findAccountsTableAux_spec ts 0 i h
  simpa using this

lemma apply_paragraph_style_text (f : String) (sz : Nat)
    (sp : Option (Option Nat × Option Nat × Option Nat)) (p : Paragraph) :
    (_apply_paragraph_style f sz sp p).text = p.text := by
  unfold _apply_paragraph_style Paragraph.text
  rcases sp with _ | ⟨sb, sa, ls⟩ <;>
    dsimp only <;>
      rw [List.map_map] <;>
        congr 1

lemma setCellWidth_text (w : Option Nat) (c : Cell) :
    (setCellWidth w c).text = c.text := by
  rcases w <;> rfl

lemma intercalate_singleton {α : Type} (sep : List α) (x : List α) :
    List.intercalate sep [x] = x := by
  simp [List.intercalate]

lemma cell_setText_text (c : Cell) (t : Str) : (c.setText t).text = t := by
  unfold Cell.setText Cell.text
  rw [List.map_cons, List.map_nil]
  rw [show Paragraph.text { emptyParagraph with runs := [defaultRun t] } =
    t from by simp [Paragraph.text, defaultRun]]
  exact intercalate_singleton _ _

lemma styled_cell_text (f : String) (sz : Nat)
    (sp : Option (Option Nat × Option Nat × Option Nat)) (c : Cell) :
    Cell.text (setCellMargins36 (setCellBorders
      { c with paragraphs := c.paragraphs.map (_apply_paragraph_style f sz sp) })) =
      Cell.text c := by
  unfold Cell.text setCellMargins36 setCellBorders
  dsimp only
  rw [List.map_map]
  congr 1
  apply List.map_congr_left
  intro p _
  exact apply_paragraph_style_text f sz sp p

lemma mkAccountRow_cells_text (f : String) (sz : Nat)
    (sp : Option (Option Nat × Option Nat × Option Nat))
    (hw : Option (List (Option Nat))) (hh : Option Nat) (acc : AccountRecord) :
    (mkAccountRow 3 f sz sp hw hh acc).cells.map Cell.text =
      [acc.account_no, acc.account_name, acc.ifsc] := by
  unfold mkAccountRow
  dsimp only [List.replicate, modifyAt]
  rcases hw with _ | ws
  · dsimp only [List.map_cons, List.map_nil]
    rw [styled_cell_text, styled_cell_text, styled_cell_text,
      cell_setText_text, cell_setText_text, cell_setText_text]
  · dsimp only
    by_cases hws : ws ≠ []
    · rw [if_pos hws]
      dsimp only [setWidths, List.map_cons, List.map_nil]
      rw [setCellWidth_text, setCellWidth_text, setCellWidth_text,
        styled_cell_text, styled_cell_text, styled_cell_text,
        cell_setText_text, cell_setText_text, cell_setText_text]
    · rw [if_neg hws]
      dsimp only [List.map_cons, List.map_nil]
      rw [styled_cell_text, styled_cell_text, styled_cell_text,
        cell_setText_text, cell_setText_text, cell_setText_text]

lemma mkAccountRow_height (ncols : Nat) (f : String) (sz : Nat)
    (sp : Option (Option Nat × Option Nat × Option Nat))
    (hw : Option (List (Option Nat))) (hh : Option Nat) (acc : AccountRecord) :
    (mkAccountRow ncols f sz sp hw hh acc).height =
        some (pyOrHeight hh (ptEmu (sz + 6))) ∧
      (mkAccountRow ncols f sz sp hw hh acc).heightRule =
        some HeightRule.atLeast := by
  unfold mkAccountRow
  exact ⟨rfl, rfl⟩

lemma styleHeaderCell_margins (f : String) (sz : Nat)
    (sp : Option (Option Nat × Option Nat × Option Nat)) (c : Cell) :
    (styleHeaderCell f sz sp c).margins = some (36, 36, 36, 36) := rfl

lemma styleHeaderCell_bold (f : String) (sz : Nat)
    (sp : Option (Option Nat × Option Nat × Option Nat)) (c : Cell) :
    ∀ p ∈ (styleHeaderCell f sz sp c).paragraphs, ∀ r ∈ p.runs,
      r.bold = some true := by
  intro p hp r hr
  unfold styleHeaderCell setCellMargins36 at hp
  simp only [List.map_map, List.mem_map] at hp
  obtain ⟨q, -, hq⟩ := hp
  rw [← hq] at hr
  simp only [Function.comp_apply, List.mem_map] at hr
  obtain ⟨r0, -, hr0⟩ := hr
  rw [← hr0]

lemma nodalRowStep_id (bn : Str) (nb : NodalBaseline) (styles : List String)
    (r s : Row) (h : ∀ c ∈ r.cells, Cell.containsNodal c = false) :
    nodalRowStep bn nb styles r s = s := by
  unfold nodalRowStep
  dsimp only
  have hcells : (s.cells.mapIdx fun j sc =>
      if j < r.cells.length ∧ Cell.containsNodal (r.cells.getD j emptyCell) = true
      then applyCellBaseline bn nb styles sc else sc) = s.cells := by
    apply List.ext_getElem
    · simp
    · intro j h1 h2
      rw [List.getElem_mapIdx]
      rw [if_neg]
      rintro ⟨hlt, hcn⟩
      rw [List.getD_eq_getElem _ _ hlt] at hcn
      have := h _ (List.getElem_mem hlt)
      rw [this] at hcn
      cases hcn
  rw [hcells]

lemma nodalRowsPass_id (bn : Str) (nb : NodalBaseline) (styles : List String) :
    ∀ (l : List Row),
      (∀ row ∈ l, ∀ c ∈ row.cells, Cell.containsNodal c = false) →
      nodalRowsPass bn nb styles l = l := by
  intro l
  induction l with
  | nil => intro _; rfl
  | cons r tl ih =>
    intro h
    match tl with
    | [] => exact nodalRowsPass_one bn nb styles r
    | s :: rest =>
      rw [nodalRowsPass_cons2,
        nodalRowStep_id bn nb styles r s (h r (List.mem_cons_self _ _))]
      rw [ih (fun row hrow => h row (List.mem_cons_of_mem _ hrow))]

/-- C1 (amended): when the extraction succeeds and the post-replacement
document's first matching 3-column account/ifsc table is table `i`, and no
cell of the rewritten table mentions "nodal officer" (otherwise the later
nodal-officer pass rewrites cells below such a cell), `generateNotice`
leaves table `i` with exactly `1 + len(records)` rows: the data rows hold
each record's account_no / account_name / routing code in cell order, the
header row's runs are all bold and its cells carry 36-twip margins on all
sides, and every row's height is AT_LEAST the captured header row height
when that is present and nonzero, and `fontSize + 6` points otherwise. -/
theorem C1_accounts_table_amended :
    ∀ (doc : Doc) (bn : Str) (accounts : List AccountRecord) (ph : Str)
      (tone : String) (fn : String) (fs : Nat) (f : String) (sz : Nat)
      (cap : HeaderCapture) (i : Nat),
      extract_template_baseline doc fn fs = some (f, sz, cap) →
      findAccountsTable (docAfterReplace doc ph bn tone).tables = some (some i) →
      (∀ row ∈ (updateTableStruct
            ((docAfterReplace doc ph bn tone).tables.getD i default)
            accounts f sz cap).rows,
          ∀ c ∈ row.cells, Cell.containsNodal c = false) →
      ∃ out, generateNotice doc bn accounts ph tone fn fs = some out ∧
        (out.tables.getD i default).rows.length = 1 + accounts.length ∧
        (∀ k, k < accounts.length →
          (((out.tables.getD i default).rows.getD (k + 1) default).cells.map
              Cell.text) =
            [(accounts.getD k default).account_no,
              (accounts.getD k default).account_name,
              (accounts.getD k default).ifsc]) ∧
        (∀ c ∈ ((out.tables.getD i default).rows.getD 0 default).cells,
          c.margins = some (36, 36, 36, 36) ∧
            ∀ p ∈ c.paragraphs, ∀ r ∈ p.runs, r.bold = some true) ∧
        (∀ row ∈ (out.tables.getD i default).rows,
          row.height = some (pyOrHeight cap.rowHeight (ptEmu (sz + 6))) ∧
            row.heightRule = some HeightRule.atLeast) := by
  intro doc bn accounts ph tone fn fs f sz cap i hext hfind hnodal
  obtain ⟨hilt, hncols, hrowsne, hhm⟩ := findAccountsTable_spec hfind
  have hstep : updateAccountsStep (docAfterReplace doc ph bn tone) accounts f sz cap =
      some { docAfterReplace doc ph bn tone with
        tables := (docAfterReplace doc ph bn tone).tables.mapIdx
          (fun j t => if j = i then updateTableStruct t accounts f sz cap else t) } := by
    unfold updateAccountsStep
    rw [hfind]
  have hgen : generateNotice doc bn accounts ph tone fn fs =
      some (nodalPhase bn
        (_extract_nodal_baseline
          { docAfterReplace doc ph bn tone with
            tables := (docAfterReplace doc ph bn tone).tables.mapIdx
              (fun j t => if j = i then updateTableStruct t accounts f sz cap else t) }
          f sz)
        { docAfterReplace doc ph bn tone with
          tables := (docAfterReplace doc ph bn tone).tables.mapIdx
            (fun j t => if j = i then updateTableStruct t accounts f sz cap else t) }) := by
    unfold generateNotice
    rw [hext]
    dsimp only
    rw [hstep]
  refine ⟨_, hgen, ?_⟩
  have hd3T : ({ docAfterReplace doc ph bn tone with
      tables := (docAfterReplace doc ph bn tone).tables.mapIdx
        (fun j t => if j = i then updateTableStruct t accounts f sz cap else t) } :
        Doc).tables.getD i default =
      updateTableStruct ((docAfterReplace doc ph bn tone).tables.getD i default)
        accounts f sz cap := by
    dsimp only
    rw [getD_mapIdx_of_lt _ _ i default default hilt]
    rw [if_pos rfl]
  have houtT : ∀ (nb : NodalBaseline) (d3 : Doc),
      d3.tables.getD i default =
        updateTableStruct ((docAfterReplace doc ph bn tone).tables.getD i default)
          accounts f sz cap →
      i < d3.tables.length →
      (nodalPhase bn nb d3).tables.getD i default =
        updateTableStruct ((docAfterReplace doc ph bn tone).tables.getD i default)
          accounts f sz cap := by
    intro nb d3 hT hlt
    have htab : (nodalPhase bn nb d3).tables =
        (d3.tables.map (fun t =>
          { t with rows := nodalRowsPass bn nb d3.styles t.rows })) := rfl
    rw [htab, getD_map_of_lt d3.tables _ i default default hlt, hT]
    rw [nodalRowsPass_id bn nb d3.styles _ hnodal]
  have hlen3 : i < ({ docAfterReplace doc ph bn tone with
      tables := (docAfterReplace doc ph bn tone).tables.mapIdx
        (fun j t => if j = i then updateTableStruct t accounts f sz cap else t) } :
        Doc).tables.length := by
    dsimp only
    simpa using hilt
  rw [houtT _ _ hd3T hlen3]
  match hr : ((docAfterReplace doc ph bn tone).tables.getD i default).rows with
  | [] => exact absurd hr hrowsne
  | r0 :: rest =>
    have hTrows : (updateTableStruct
        ((docAfterReplace doc ph bn tone).tables.getD i default)
        accounts f sz cap).rows =
        styleHeaderRow f sz cap.spacing cap.rowHeight r0 ::
          accounts.map (mkAccountRow
            ((docAfterReplace doc ph bn tone).tables.getD i default).ncols
            f sz cap.spacing cap.widths cap.rowHeight) := by
      unfold updateTableStruct
      rw [hr]
    refine ⟨?_, ?_, ?_, ?_⟩
    · rw [hTrows]
      simp [Nat.add_comm]
    · intro k hk
      rw [hTrows, List.getD_cons_succ,
        getD_map_of_lt accounts _ k default default hk, hncols]
      exact mkAccountRow_cells_text f sz cap.spacing cap.widths cap.rowHeight _
    · intro c hc
      rw [hTrows, List.getD_cons_zero] at hc
      have hcells : (styleHeaderRow f sz cap.spacing cap.rowHeight r0).cells =
          r0.cells.map (styleHeaderCell f sz cap.spacing) := rfl
      rw [hcells] at hc
      simp only [List.mem_map] at hc
      obtain ⟨c0, -, hc0⟩ := hc
      rw [← hc0]
      exact ⟨styleHeaderCell_margins f sz cap.spacing c0,
        styleHeaderCell_bold f sz cap.spacing c0⟩
    · intro row hrow
      rw [hTrows] at hrow
      rcases List.mem_cons.mp hrow with hh | hmem
      · rw [hh]
        exact ⟨rfl, rfl⟩
      · simp only [List.mem_map] at hmem
        obtain ⟨acc, -, hacc⟩ := hmem
        rw [← hacc]
        exact mkAccountRow_height _ f sz cap.spacing cap.widths cap.rowHeight acc

/-- A 3-cell header cell for concrete documents. -/
def hdrCell (t : Str) : Cell :=
  { paragraphs := [paraOfText t], width := some 100, margins := none,
    hasBorders := false, vAlign := none }

/-- A template whose accounts-table header row has a declared height of 0
and one stale data row. -/
def c1xDoc : Doc :=
  { paragraphs := [paraOfText "Dear ICICI BANK customer".toList],
    tables := [{ ncols := 3,
                 rows := [{ cells := [hdrCell "Account No".toList,
                              hdrCell "Name".toList, hdrCell "IFSC Code".toList],
                            height := some 0, heightRule := none },
                          { cells := [hdrCell "old1".toList,
                              hdrCell "old2".toList, hdrCell "old3".toList],
                            height := none, heightRule := none }],
                 alignment := none, styleName := none, hasBorders := false }],
    styles := [] }

/-- Two records; the first account number mentions "nodal officer". -/
def c1xAccounts : List AccountRecord :=
  [⟨"nodal officer".toList, "A".toList, "SBIN0001234".toList⟩,
   ⟨"222".toList, "B".toList, "SBIN0001234".toList⟩]

/-- C1 counterexample: on this template the captured header row height is
`some 0`, yet every row of the produced table has height `177800` EMU
(= 14 pt, i.e. fontSize 8 + 6) instead of the captured height — Python's
`x or y` treats the captured 0 as falsy; and the second data row's first
cell holds the bank name rather than the second record's account number,
because the first record's account number mentions "nodal officer" and the
later nodal pass rewrites the cell below it.  Both contradict the claim as
stated. -/
theorem C1_counterexample :
    extract_template_baseline c1xDoc "Arial" 8 =
      some ("Arial", 8,
        ⟨some [some 100, some 100, some 100], some 0, some (none, none, none)⟩)
    ∧ (generateNotice c1xDoc ("X BANK".toList) c1xAccounts
          ("ICICI BANK".toList) "formal" "Arial" 8).map
        (fun out => ((out.tables.getD 0 default).rows.getD 1 default).height) =
      some (some 177800)
    ∧ (generateNotice c1xDoc ("X BANK".toList) c1xAccounts
          ("ICICI BANK".toList) "formal" "Arial" 8).map
        (fun out => (((out.tables.getD 0 default).rows.getD 2 default).cells.getD
          0 default).text) =
      some ("X BANK".toList)
    ∧ (c1xAccounts.getD 1 default).account_no = "222".toList
    ∧ (177800 : Nat) ≠ 0 ∧ "X BANK".toList ≠ "222".toList := by
  refine ⟨by decide, by decide, by decide, by decide, by decide, by decide⟩

/-- A benign template (no declared header height, no nodal text). -/
def c1wDoc : Doc :=
  { paragraphs := [paraOfText "Dear ICICI BANK customer".toList],
    tables := [{ ncols := 3,
                 rows := [{ cells := [hdrCell "Account No".toList,
                              hdrCell "Name".toList, hdrCell "IFSC Code".toList],
                            height := none, heightRule := none },
                          { cells := [hdrCell "old1".toList,
                              hdrCell "old2".toList, hdrCell "old3".toList],
                            height := none, heightRule := none }],
                 alignment := none, styleName := none, hasBorders := false }],
    styles := [] }

def c1wAccounts : List AccountRecord :=
  [⟨"111".toList, "A".toList, "SBIN0001234".toList⟩]

/-- Witness for C1: the amended theorem applied to a concrete template and
record list. -/
theorem C1_witness :
    ∃ out, generateNotice c1wDoc ("X BANK".toList) c1wAccounts
        ("ICICI BANK".toList) "formal" "Arial" 8 = some out ∧
      (out.tables.getD 0 default).rows.length = 1 + c1wAccounts.length := by
  obtain ⟨out, h1, h2, -, -, -⟩ :=
    C1_accounts_table_amended c1wDoc ("X BANK".toList) c1wAccounts
      ("ICICI BANK".toList) "formal" "Arial" 8 "Arial" 8
      ⟨some [some 100, some 100, some 100], none, some (none, none, none)⟩ 0
      (by decide) (by decide) (by decide)
  exact ⟨out, h1, h2⟩

end MakeNotice
